import Mathlib

/-!
# A shallow embedding of the DeepC neural-network library

This file embeds the C sources of the DeepC repository (dense matrix
engine, activations, losses, dense layers, optimizers, the sequential
model with its training loop, and the textual model/weight persistence)
into Lean, and proves the specification claims about them.

Modelling conventions, used throughout:

* C `double` values are modelled as real numbers (`ℝ`).  IEEE NaN /
  infinity special values have no counterpart, so `isnan` is uniformly
  `false` in the embedding.
* A C `Matrix` (a `rows × cols` heap block of doubles) is modelled as a
  shape together with a total function `ℕ → ℕ → ℝ`.  Only the indices
  `i < rows`, `j < cols` correspond to actual C memory; values of the
  function outside those bounds are meaningless junk and never appear in
  any theorem.
* Fatal precondition failures (`MATRIX_CHECK` / `LAYER_CHECK` /
  `MODEL_CHECK` / `LOSS_CHECK` / `OPTIMIZER_CHECK` macros, which print
  a message and call `exit`) are modelled by returning `none` from an
  `Option`-valued embedding; C undefined behaviour (reads of
  uninitialized `sscanf` outputs, out-of-bounds writes) is likewise
  modelled as `none` / failure.
* C functions that mutate their arguments are modelled as functions
  returning the updated value (a deep copy of an immutable value is the
  identity).
-/

namespace DeepC

/-- The C `Matrix` struct from `matrix.h`: `rows`, `cols` and a
`rows × cols` table of doubles.  `data` is total; only in-bounds indices
model C memory. -/
structure Matrix where
  rows : ℕ
  cols : ℕ
  data : ℕ → ℕ → ℝ

/-- Extensional matrix equality: same shape and same in-bounds entries.
This is what "identical values" means for the C memory blocks. -/
def Matrix.MEq (A B : Matrix) : Prop :=
  A.rows = B.rows ∧ A.cols = B.cols ∧
    ∀ i j, i < A.rows → j < A.cols → A.data i j = B.data i j

/-- `create_matrix` (matrix.c): zero-initialized matrix.  The C version
aborts on non-positive dimensions; every in-repository call site passes
positive sizes, so the embedding is total. -/
def create_matrix (rows cols : ℕ) : Matrix :=
  ⟨rows, cols, fun _ _ => 0⟩

/-- `copy_matrix` (matrix.c): a deep copy of an immutable value is the
identity in a functional embedding. -/
def copy_matrix (m : Matrix) : Matrix := m

/-- `transpose` (matrix.c). -/
def transpose (a : Matrix) : Matrix :=
  ⟨a.cols, a.rows, fun i j => a.data j i⟩

/-- `dot` (matrix.c): matrix product.  Returns `NULL` (here `none`) when
the inner dimensions disagree; otherwise the `A.rows × B.cols` matrix of
triple-loop accumulations `Σ_k A[i][k]*B[k][j]`. -/
noncomputable def dot (a b : Matrix) : Option Matrix :=
  if a.cols = b.rows then
    some ⟨a.rows, b.cols, fun i j => ∑ k ∈ Finset.range a.cols, a.data i k * b.data k j⟩
  else none

/-- `matrix_has_nan` (matrix.c): IEEE NaN has no counterpart in the
real-number embedding of doubles, so the scan always reports `false`. -/
def matrix_has_nan (_ : Matrix) : Bool := false

/-- The `Activation` enum from `layers.h`: LINEAR, SIGMOID, RELU, TANH,
SOFTMAX (C enum codes 0..4). -/
inductive Activation
  | linear
  | sigmoid
  | relu
  | tanh
  | softmax
deriving DecidableEq

/-- Row maximum scanned by the SOFTMAX branch of `apply_activation`
(layers.c): the C loop starts from `-INFINITY` and folds `max` over the
row; with at least one column this equals a fold seeded with the first
entry. -/
def row_max (m : Matrix) (i : ℕ) : ℝ :=
  ((List.range m.cols).map (fun j => m.data i j)).foldl max (m.data i 0)

/-- Row sum of stabilized exponentials from the SOFTMAX branch of
`apply_activation` (layers.c). -/
noncomputable def row_sumexp (m : Matrix) (i : ℕ) : ℝ :=
  ∑ j ∈ Finset.range m.cols, Real.exp (m.data i j - row_max m i)

/-- `apply_activation` (layers.c): elementwise activation; SOFTMAX is
row-wise stabilized exponential normalization. -/
noncomputable def apply_activation (input : Matrix) : Activation → Matrix
  | .linear => ⟨input.rows, input.cols, fun i j => input.data i j⟩
  | .sigmoid => ⟨input.rows, input.cols, fun i j => 1 / (1 + Real.exp (-input.data i j))⟩
  | .relu => ⟨input.rows, input.cols, fun i j =>
      if 0 < input.data i j then input.data i j else 0⟩
  | .tanh => ⟨input.rows, input.cols, fun i j => Real.tanh (input.data i j)⟩
  | .softmax => ⟨input.rows, input.cols, fun i j =>
      Real.exp (input.data i j - row_max input i) / row_sumexp input i⟩

/-- `apply_activation_derivative` (layers.c).  The SOFTMAX branch is the
constant 1 for every element: the combined softmax + categorical
cross-entropy derivative is supplied by the loss gradient instead. -/
noncomputable def apply_activation_derivative (input : Matrix) : Activation → Matrix
  | .linear => ⟨input.rows, input.cols, fun _ _ => 1⟩
  | .sigmoid => ⟨input.rows, input.cols, fun i j =>
      (1 / (1 + Real.exp (-input.data i j))) * (1 - 1 / (1 + Real.exp (-input.data i j)))⟩
  | .relu => ⟨input.rows, input.cols, fun i j => if 0 < input.data i j then 1 else 0⟩
  | .tanh => ⟨input.rows, input.cols, fun i j =>
      1 - Real.tanh (input.data i j) * Real.tanh (input.data i j)⟩
  | .softmax => ⟨input.rows, input.cols, fun _ _ => 1⟩

/-- The C `Layer` struct from `layers.h`: shapes, activation kind,
weight/bias matrices, gradient buffers, and the forward-pass cache
(`input`, `z`, `output`), `NULL` (= `none`) before the first forward
call. -/
structure Layer where
  name : String
  activation : Activation
  input_size : ℕ
  output_size : ℕ
  weights : Matrix
  biases : Matrix
  dweights : Matrix
  dbiases : Matrix
  input : Option Matrix
  output : Option Matrix
  z : Option Matrix
  next : Option Unit := none

/-- `Dense` (layers.c): a fresh dense layer.  The Xavier-random weight
draw (process-global `rand`) is modelled by an explicit `init` function;
biases and gradient buffers are zero, caches empty. -/
def Dense (units : ℕ) (activation : Activation) (input_dim : ℕ)
    (init : ℕ → ℕ → ℝ) : Layer :=
  { name := "dense"
    activation := activation
    input_size := input_dim
    output_size := units
    weights := ⟨units, input_dim, init⟩
    biases := create_matrix units 1
    dweights := create_matrix units input_dim
    dbiases := create_matrix units 1
    input := none
    output := none
    z := none }

/-- `forward_pass` (layers.c): validates the input width, computes
`z = input · weightsᵗ` plus the broadcast bias column, caches `input`,
`z` and the activated `output`, and returns the output. -/
noncomputable def forward_pass (layer : Layer) (input : Matrix) :
    Option (Layer × Matrix) :=
  if input.cols = layer.input_size then
    match dot input (transpose layer.weights) with
    | none => none
    | some z0 =>
      let z : Matrix := ⟨z0.rows, z0.cols, fun i j => z0.data i j + layer.biases.data j 0⟩
      let out := apply_activation z layer.activation
      some ({ layer with
                input := some (copy_matrix input)
                z := some (copy_matrix z)
                output := some (copy_matrix out) }, out)
  else none

/-- `backward_pass` (layers.c): requires the forward cache; computes
`delta = gradient ⊙ activation_derivative(z)`, stores
`deltaᵗ·input / batch` and the per-column mean of `delta` into the
gradient buffers, and returns `delta · weights`. -/
noncomputable def backward_pass (layer : Layer) (gradient : Matrix) :
    Option (Layer × Matrix) :=
  match layer.z, layer.input with
  | some z, some inp =>
    let activation_deriv := apply_activation_derivative z layer.activation
    let delta : Matrix := ⟨gradient.rows, gradient.cols,
      fun i j => gradient.data i j * activation_deriv.data i j⟩
    let input_transpose := transpose inp
    let dw : Matrix := ⟨layer.dweights.rows, layer.dweights.cols,
      fun i j => (∑ k ∈ Finset.range delta.rows,
        delta.data k i * input_transpose.data j k) / (delta.rows : ℝ)⟩
    let db : Matrix := ⟨layer.dbiases.rows, layer.dbiases.cols,
      fun i j => if j = 0 then
        (∑ k ∈ Finset.range delta.rows, delta.data k i) / (delta.rows : ℝ)
      else layer.dbiases.data i j⟩
    match dot delta layer.weights with
    | none => none
    | some prev_gradient =>
      some ({ layer with dweights := dw, dbiases := db }, prev_gradient)
  | _, _ => none

/-- The `LossFunction` enum from `losses.h`: MEAN_SQUARED_ERROR,
BINARY_CROSSENTROPY, CATEGORICAL_CROSSENTROPY (C enum codes 0..2). -/
inductive LossFunction
  | mean_squared_error
  | binary_crossentropy
  | categorical_crossentropy
deriving DecidableEq

/-- `mse_loss` (losses.c): sum of squared differences over all elements,
divided by the total element count. -/
noncomputable def mse_loss (y_true y_pred : Matrix) : ℝ :=
  (∑ i ∈ Finset.range y_true.rows, ∑ j ∈ Finset.range y_true.cols,
    (y_true.data i j - y_pred.data i j) * (y_true.data i j - y_pred.data i j))
  / ((y_true.rows * y_true.cols : ℕ) : ℝ)

/-- `mse_gradient` (losses.c): `2*(pred-true)/N`, `N` the total element
count. -/
noncomputable def mse_gradient (y_true y_pred : Matrix) : Matrix :=
  ⟨y_true.rows, y_true.cols, fun i j =>
    2 * (y_pred.data i j - y_true.data i j) / ((y_true.rows * y_true.cols : ℕ) : ℝ)⟩

/-- The prediction clipping used by both cross-entropy losses
(losses.c): clamp into `[1e-7, 1-1e-7]`. -/
noncomputable def clip_pred (y_p : ℝ) : ℝ :=
  if y_p < 1e-7 then 1e-7 else if y_p > 1 - 1e-7 then 1 - 1e-7 else y_p

/-- `binary_crossentropy_loss` (losses.c). -/
noncomputable def binary_crossentropy_loss (y_true y_pred : Matrix) : ℝ :=
  -(∑ i ∈ Finset.range y_true.rows, ∑ j ∈ Finset.range y_true.cols,
      (y_true.data i j * Real.log (clip_pred (y_pred.data i j)) +
        (1 - y_true.data i j) * Real.log (1 - clip_pred (y_pred.data i j))))
  / ((y_true.rows * y_true.cols : ℕ) : ℝ)

/-- `binary_crossentropy_gradient` (losses.c). -/
noncomputable def binary_crossentropy_gradient (y_true y_pred : Matrix) : Matrix :=
  ⟨y_true.rows, y_true.cols, fun i j =>
    (clip_pred (y_pred.data i j) - y_true.data i j)
      / (clip_pred (y_pred.data i j) * (1 - clip_pred (y_pred.data i j)))
      / ((y_true.rows * y_true.cols : ℕ) : ℝ)⟩

/-- `categorical_crossentropy_loss` (losses.c): note the divisor is the
sample (row) count, not the element count. -/
noncomputable def categorical_crossentropy_loss (y_true y_pred : Matrix) : ℝ :=
  -(∑ i ∈ Finset.range y_true.rows, ∑ j ∈ Finset.range y_true.cols,
      y_true.data i j * Real.log (clip_pred (y_pred.data i j)))
  / ((y_true.rows : ℕ) : ℝ)

/-- `categorical_crossentropy_gradient` (losses.c): `(p-y)/num_samples`,
the simplified combined softmax-CE gradient. -/
noncomputable def categorical_crossentropy_gradient (y_true y_pred : Matrix) : Matrix :=
  ⟨y_true.rows, y_true.cols, fun i j =>
    (clip_pred (y_pred.data i j) - y_true.data i j) / ((y_true.rows : ℕ) : ℝ)⟩

/-- `compute_loss` (losses.c): dimension and NaN guards
(`LOSS_CHECK` aborts are `none`), then dispatch on the loss kind. -/
noncomputable def compute_loss (y_true y_pred : Matrix) (loss_func : LossFunction) :
    Option ℝ :=
  if y_true.rows = y_pred.rows ∧ y_true.cols = y_pred.cols then
    if matrix_has_nan y_true then none
    else if matrix_has_nan y_pred then none
    else some (match loss_func with
      | .mean_squared_error => mse_loss y_true y_pred
      | .binary_crossentropy => binary_crossentropy_loss y_true y_pred
      | .categorical_crossentropy => categorical_crossentropy_loss y_true y_pred)
  else none

/-- `compute_loss_gradient` (losses.c): same guards, dispatching to the
gradient of the selected loss. -/
noncomputable def compute_loss_gradient (y_true y_pred : Matrix)
    (loss_func : LossFunction) : Option Matrix :=
  if y_true.rows = y_pred.rows ∧ y_true.cols = y_pred.cols then
    if matrix_has_nan y_true then none
    else if matrix_has_nan y_pred then none
    else some (match loss_func with
      | .mean_squared_error => mse_gradient y_true y_pred
      | .binary_crossentropy => binary_crossentropy_gradient y_true y_pred
      | .categorical_crossentropy => categorical_crossentropy_gradient y_true y_pred)
  else none

/-- The `Optimizer` enum from `optimizers.h`: SGD, ADAM (codes 0, 1). -/
inductive Optimizer
  | sgd
  | adam
deriving DecidableEq

/-- The `OptimizerState` struct from `optimizers.h`: optimizer kind,
learning rate, Adam hyper-parameters, the shared timestep, and four
per-layer-index arrays of lazily allocated moment matrices (`NULL`
entries are `none`).  For SGD the C struct leaves the Adam fields
uninitialized and never reads them; the embedding zeroes them. -/
structure OptimizerState where
  type : Optimizer
  learning_rate : ℝ
  beta1 : ℝ
  beta2 : ℝ
  epsilon : ℝ
  timestep : ℕ
  max_layers : ℕ
  m_weights : ℕ → Option Matrix
  v_weights : ℕ → Option Matrix
  m_biases : ℕ → Option Matrix
  v_biases : ℕ → Option Matrix

/-- `create_optimizer` (optimizers.c): positive learning rate required
(`OPTIMIZER_CHECK` abort is `none`); `timestep = 0`, `max_layers = 100`,
all moment slots `NULL`; Adam gets `β1=0.9`, `β2=0.999`, `ε=1e-8`. -/
noncomputable def create_optimizer (type : Optimizer) (learning_rate : ℝ) :
    Option OptimizerState :=
  if learning_rate > 0 then
    some { type := type
           learning_rate := learning_rate
           beta1 := if type = .adam then 0.9 else 0
           beta2 := if type = .adam then 0.999 else 0
           epsilon := if type = .adam then 1e-8 else 0
           timestep := 0
           max_layers := 100
           m_weights := fun _ => none
           v_weights := fun _ => none
           m_biases := fun _ => none
           v_biases := fun _ => none }
  else none

/-- The pre-update moment matrix seen by `update_weights_adam`: the slot
contents, or the fresh zero matrix `initialize_adam_moments` allocates on
first use. -/
def moment_or_zero (slot : Option Matrix) (rows cols : ℕ) : Matrix :=
  slot.getD (create_matrix rows cols)

/-- `initialize_adam_moments` (optimizers.c): bounds-checked
(`OPTIMIZER_CHECK` abort is `none`); allocates all four zero moment
matrices for `layer_index` if that slot is still `NULL`. -/
def initialize_adam_moments (optimizer : OptimizerState) (layer : Layer)
    (layer_index : ℕ) : Option OptimizerState :=
  if layer_index < optimizer.max_layers then
    some (match optimizer.m_weights layer_index with
      | some _ => optimizer
      | none =>
        { optimizer with
            m_weights := fun k => if k = layer_index then
              some (create_matrix layer.weights.rows layer.weights.cols)
              else optimizer.m_weights k
            v_weights := fun k => if k = layer_index then
              some (create_matrix layer.weights.rows layer.weights.cols)
              else optimizer.v_weights k
            m_biases := fun k => if k = layer_index then
              some (create_matrix layer.biases.rows layer.biases.cols)
              else optimizer.m_biases k
            v_biases := fun k => if k = layer_index then
              some (create_matrix layer.biases.rows layer.biases.cols)
              else optimizer.v_biases k })
  else none

/-- `update_weights_sgd` (optimizers.c): `param -= lr * grad`, for the
weight block and the bias column independently. -/
def update_weights_sgd (layer : Layer) (optimizer : OptimizerState) : Layer :=
  { layer with
      weights := ⟨layer.weights.rows, layer.weights.cols, fun i j =>
        layer.weights.data i j - optimizer.learning_rate * layer.dweights.data i j⟩
      biases := ⟨layer.biases.rows, layer.biases.cols, fun i j =>
        if j = 0 then
          layer.biases.data i 0 - optimizer.learning_rate * layer.dbiases.data i 0
        else layer.biases.data i j⟩ }

/-- The updated first weight-moment matrix of `update_weights_adam`
(optimizers.c): `m = β1*m + (1-β1)*grad`, elementwise over the layer's
weight shape (which the moment storage shares by construction). -/
noncomputable def adam_new_mw (o2 : OptimizerState) (layer : Layer) (mw : Matrix) :
    Matrix :=
  ⟨mw.rows, mw.cols, fun i j =>
    o2.beta1 * mw.data i j + (1 - o2.beta1) * layer.dweights.data i j⟩

/-- The updated second weight-moment matrix of `update_weights_adam`:
`v = β2*v + (1-β2)*grad²`. -/
noncomputable def adam_new_vw (o2 : OptimizerState) (layer : Layer) (vw : Matrix) :
    Matrix :=
  ⟨vw.rows, vw.cols, fun i j =>
    o2.beta2 * vw.data i j +
      (1 - o2.beta2) * layer.dweights.data i j * layer.dweights.data i j⟩

/-- The updated first bias-moment matrix of `update_weights_adam` (the C
loop writes only column 0). -/
noncomputable def adam_new_mb (o2 : OptimizerState) (layer : Layer) (mb : Matrix) :
    Matrix :=
  ⟨mb.rows, mb.cols, fun i j =>
    if j = 0 then o2.beta1 * mb.data i 0 + (1 - o2.beta1) * layer.dbiases.data i 0
    else mb.data i j⟩

/-- The updated second bias-moment matrix of `update_weights_adam`. -/
noncomputable def adam_new_vb (o2 : OptimizerState) (layer : Layer) (vb : Matrix) :
    Matrix :=
  ⟨vb.rows, vb.cols, fun i j =>
    if j = 0 then o2.beta2 * vb.data i 0 +
      (1 - o2.beta2) * layer.dbiases.data i 0 * layer.dbiases.data i 0
    else vb.data i j⟩

/-- The layer produced by `update_weights_adam`: parameters stepped by
`lr * m̂ / (sqrt(v̂) + ε)` with bias corrections `1-β^timestep` taken at
the (already incremented) timestep of `o2`. -/
noncomputable def adam_step_layer (layer : Layer) (o2 : OptimizerState)
    (mw vw mb vb : Matrix) : Layer :=
  { layer with
      weights := ⟨layer.weights.rows, layer.weights.cols, fun i j =>
        layer.weights.data i j -
          o2.learning_rate * ((adam_new_mw o2 layer mw).data i j / (1 - o2.beta1 ^ o2.timestep))
            / (Real.sqrt ((adam_new_vw o2 layer vw).data i j / (1 - o2.beta2 ^ o2.timestep))
                + o2.epsilon)⟩
      biases := ⟨layer.biases.rows, layer.biases.cols, fun i j =>
        if j = 0 then
          layer.biases.data i 0 -
            o2.learning_rate * ((adam_new_mb o2 layer mb).data i 0 / (1 - o2.beta1 ^ o2.timestep))
              / (Real.sqrt ((adam_new_vb o2 layer vb).data i 0 / (1 - o2.beta2 ^ o2.timestep))
                  + o2.epsilon)
        else layer.biases.data i j⟩ }

/-- The optimizer state produced by `update_weights_adam`: the four
moment slots of `layer_index` hold the updated moments. -/
noncomputable def adam_step_state (o2 : OptimizerState) (layer_index : ℕ)
    (layer : Layer) (mw vw mb vb : Matrix) : OptimizerState :=
  { o2 with
      m_weights := fun k => if k = layer_index then some (adam_new_mw o2 layer mw)
        else o2.m_weights k
      v_weights := fun k => if k = layer_index then some (adam_new_vw o2 layer vw)
        else o2.v_weights k
      m_biases := fun k => if k = layer_index then some (adam_new_mb o2 layer mb)
        else o2.m_biases k
      v_biases := fun k => if k = layer_index then some (adam_new_vb o2 layer vb)
        else o2.v_biases k }

/-- `update_weights_adam` (optimizers.c): lazily initialize the moment
slots, increment the shared `timestep`, then per element update both
moment estimates, bias-correct them with `1-β^timestep`, and step the
parameters. -/
noncomputable def update_weights_adam (layer : Layer) (optimizer : OptimizerState)
    (layer_index : ℕ) : Option (Layer × OptimizerState) :=
  match initialize_adam_moments optimizer layer layer_index with
  | none => none
  | some o1 =>
    let o2 := { o1 with timestep := o1.timestep + 1 }
    match o2.m_weights layer_index, o2.v_weights layer_index,
        o2.m_biases layer_index, o2.v_biases layer_index with
    | some mw, some vw, some mb, some vb =>
      some (adam_step_layer layer o2 mw vw mb vb,
        adam_step_state o2 layer_index layer mw vw mb vb)
    | _, _, _, _ => none

/-- `update_weights` (optimizers.c): dispatch on the optimizer kind. -/
noncomputable def update_weights (layer : Layer) (optimizer : OptimizerState)
    (layer_index : ℕ) : Option (Layer × OptimizerState) :=
  match optimizer.type with
  | .sgd => some (update_weights_sgd layer optimizer, optimizer)
  | .adam => update_weights_adam layer optimizer layer_index

/-- The layer loop of `update_model_weights` (models.c): walk the layer
chain, calling `update_weights` with the running layer index. -/
noncomputable def update_layers : List Layer → OptimizerState → ℕ →
    Option (List Layer × OptimizerState)
  | [], o, _ => some ([], o)
  | l :: ls, o, idx =>
    match update_weights l o idx with
    | none => none
    | some (l', o') =>
      match update_layers ls o' (idx + 1) with
      | none => none
      | some (ls', o'') => some (l' :: ls', o'')

/-- The C `SequentialModel` struct from `models.h`: name, the ordered
layer chain (head = input layer, tail = output layer), its length,
training hyper-parameters, the optimizer state (present only after
compilation) and the compiled flag. -/
structure SeqModel where
  name : String
  layers : List Layer
  num_layers : ℕ
  learning_rate : ℝ
  loss_function : LossFunction
  optimizer_type : Optimizer
  optimizer : Option OptimizerState
  is_compiled : Bool

/-- `create_model` (models.c): empty uncompiled model with the default
hyper-parameters. -/
def create_model (name : Option String) : SeqModel :=
  { name := name.getD "sequential_model"
    layers := []
    num_layers := 0
    learning_rate := 0.01
    loss_function := .mean_squared_error
    optimizer_type := .sgd
    optimizer := none
    is_compiled := false }

/-- `add_layer` (models.c): append to the chain; a non-first layer must
match the current tail's output size (`MODEL_CHECK` abort is `none`). -/
def add_layer (model : SeqModel) (layer : Layer) : Option SeqModel :=
  match model.layers.getLast? with
  | none => some { model with layers := [layer], num_layers := model.num_layers + 1 }
  | some tail =>
    if tail.output_size = layer.input_size then
      some { model with layers := (model.layers ++ [layer])
                        num_layers := model.num_layers + 1 }
    else none

/-- `compile` (models.c): requires at least one layer and a positive
learning rate; binds loss/optimizer/learning rate, builds a fresh
`OptimizerState` and sets the compiled flag. -/
noncomputable def compile (model : SeqModel) (optimizer : Optimizer)
    (loss : LossFunction) (learning_rate : ℝ) : Option SeqModel :=
  match model.layers with
  | [] => none
  | _ :: _ =>
    if learning_rate > 0 then
      match create_optimizer optimizer learning_rate with
      | none => none
      | some o =>
        some { model with
                 optimizer_type := optimizer
                 loss_function := loss
                 learning_rate := learning_rate
                 optimizer := some o
                 is_compiled := true }
    else none

/-- The layer loop of `predict` (models.c): each layer's forward output
feeds the next layer; the updated layers carry the fresh caches. -/
noncomputable def predict_layers : List Layer → Matrix → Option (List Layer × Matrix)
  | [], x => some ([], x)
  | l :: ls, x =>
    match forward_pass l x with
    | none => none
    | some (l', y) =>
      match predict_layers ls y with
      | none => none
      | some (ls', out) => some (l' :: ls', out)

/-- `predict` (models.c): requires a non-empty layer chain; chains
`forward_pass` through every layer and returns the final output (the
model is returned too because every layer's cache is overwritten). -/
noncomputable def predict (model : SeqModel) (input : Matrix) :
    Option (SeqModel × Matrix) :=
  match model.layers with
  | [] => none
  | _ :: _ =>
    match predict_layers model.layers (copy_matrix input) with
    | none => none
    | some (ls', out) => some ({ model with layers := ls' }, out)

/-- The reverse layer loop of `backward_propagation` (models.c): later
layers are processed first, threading the gradient backwards. -/
noncomputable def backward_layers : List Layer → Matrix → Option (List Layer × Matrix)
  | [], g => some ([], g)
  | l :: ls, g =>
    match backward_layers ls g with
    | none => none
    | some (ls', g') =>
      match backward_pass l g' with
      | none => none
      | some (l', g'') => some (l' :: ls', g'')

/-- `backward_propagation` (models.c): full backward pass through all
layers in reverse order starting from the loss gradient. -/
noncomputable def backward_propagation (model : SeqModel) (loss_gradient : Matrix) :
    Option SeqModel :=
  match backward_layers model.layers (copy_matrix loss_gradient) with
  | none => none
  | some (ls', _) => some { model with layers := ls' }

/-- `update_model_weights` (models.c): requires an optimizer
(`MODEL_CHECK` abort is `none`); updates every layer in forward order,
each with its position as optimizer index. -/
noncomputable def update_model_weights (model : SeqModel) : Option SeqModel :=
  match model.optimizer with
  | none => none
  | some o =>
    match update_layers model.layers o 0 with
    | none => none
    | some (ls', o') => some { model with layers := ls', optimizer := some o' }

/-- The `batch_size` clamp at the top of `fit` (models.c): any value
`≤ 0` or greater than the sample count means "full batch". -/
def fit_batch_size (num_samples : ℕ) (batch_size : ℤ) : ℕ :=
  if batch_size ≤ 0 ∨ (num_samples : ℤ) < batch_size then num_samples
  else batch_size.toNat

/-- `num_batches = (num_samples + batch_size - 1) / batch_size` from
`fit` (models.c), for the already clamped batch size. -/
def num_batches (num_samples batch_size : ℕ) : ℕ :=
  (num_samples + batch_size - 1) / batch_size

/-- `end_idx` of batch `b` in `fit` (models.c): `(b+1)*batch_size`,
cut off at `num_samples`. -/
def batch_end (num_samples batch_size b : ℕ) : ℕ :=
  min ((b + 1) * batch_size) num_samples

/-- The original-row indices batch `b` of `fit` copies into `X_batch` /
`y_batch`: `start_idx + i` for `i < current_batch_size`, with
`start_idx = b*batch_size`. -/
def fit_batch_rows (num_samples batch_size b : ℕ) : List ℕ :=
  (List.range (batch_end num_samples batch_size b - b * batch_size)).map
    (fun i => b * batch_size + i)

/-- The per-epoch batch schedule of `fit` (models.c): the row-index
lists of all `num_batches` contiguous batches, in order. -/
def fit_batches (num_samples batch_size : ℕ) : List (List ℕ) :=
  (List.range (num_batches num_samples batch_size)).map
    (fit_batch_rows num_samples batch_size)

/-- The batch-matrix construction of `fit` (models.c):
`X_batch->data[i][j] = X->data[rows[i]][j]`. -/
def select_rows (X : Matrix) (rows : List ℕ) : Matrix :=
  ⟨rows.length, X.cols, fun i j => X.data (rows.getD i 0) j⟩

/-- One batch body of `fit` (models.c): forward pass, loss (reported
only), loss gradient, backward pass, weight update. -/
noncomputable def train_batch (model : SeqModel) (X_batch y_batch : Matrix) :
    Option SeqModel :=
  match predict model X_batch with
  | none => none
  | some (m1, predictions) =>
    match compute_loss y_batch predictions m1.loss_function with
    | none => none
    | some _ =>
      match compute_loss_gradient y_batch predictions m1.loss_function with
      | none => none
      | some loss_gradient =>
        match backward_propagation m1 loss_gradient with
        | none => none
        | some m2 => update_model_weights m2

/-- The inner batch loop of `fit` (models.c), over the per-epoch batch
schedule. -/
noncomputable def run_batches (X y : Matrix) :
    SeqModel → List (List ℕ) → Option SeqModel
  | model, [] => some model
  | model, rows :: rest =>
    match train_batch model (select_rows X rows) (select_rows y rows) with
    | none => none
    | some model' => run_batches X y model' rest

/-- The epoch loop of `fit` (models.c). -/
noncomputable def run_epochs (X y : Matrix) (batches : List (List ℕ)) :
    SeqModel → ℕ → Option SeqModel
  | model, 0 => some model
  | model, Nat.succ epochs =>
    match run_batches X y model batches with
    | none => none
    | some model' => run_epochs X y batches model' epochs

/-- `fit` (models.c): requires a compiled model and `X.rows == y.rows`
(`MODEL_CHECK` abort is `none`), clamps the batch size, then runs the
epoch loop over the contiguous batch schedule. -/
noncomputable def fit (model : SeqModel) (X y : Matrix) (epochs : ℕ)
    (batch_size : ℤ) : Option SeqModel :=
  if model.is_compiled = false then none
  else if X.rows ≠ y.rows then none
  else run_epochs X y (fit_batches X.rows (fit_batch_size X.rows batch_size))
    model epochs

/-- `evaluate` (models.c): one forward pass plus loss computation with
the model's loss selector — note there is no `is_compiled` check. -/
noncomputable def evaluate (model : SeqModel) (X y : Matrix) : Option ℝ :=
  match predict model X with
  | none => none
  | some (_, predictions) => compute_loss y predictions model.loss_function

/-- Test fixture: a 1→1 Linear-layer model that has never been compiled
(`is_compiled = false`, no optimizer), with weights `[[1]]`. -/
noncomputable def example_uncompiled_model : SeqModel :=
  { name := "m"
    layers := [Dense 1 .linear 1 (fun _ _ => 1)]
    num_layers := 1
    learning_rate := 0.01
    loss_function := .mean_squared_error
    optimizer_type := .sgd
    optimizer := none
    is_compiled := false }

/-- Test fixture: the 1×1 matrix `[[1]]`. -/
def example_unit_matrix : Matrix := ⟨1, 1, fun _ _ => 1⟩

/-- Test fixture: the same 1→1 Linear-layer model after an SGD
compilation. -/
noncomputable def example_compiled_model : SeqModel :=
  { name := "m"
    layers := [Dense 1 .linear 1 (fun _ _ => 1)]
    num_layers := 1
    learning_rate := 0.01
    loss_function := .mean_squared_error
    optimizer_type := .sgd
    optimizer := some
      { type := .sgd, learning_rate := 0.01, beta1 := 0, beta2 := 0,
        epsilon := 0, timestep := 0, max_layers := 100,
        m_weights := fun _ => none, v_weights := fun _ => none,
        m_biases := fun _ => none, v_biases := fun _ => none }
    is_compiled := true }

/-- Invariant maintained by `initialize_adam_moments`: the four moment
slots of a layer index are allocated together (in C they are `malloc`ed
in the same branch; a state with only some of them `NULL` is
unreachable). -/
def OptimizerState.SlotsConsistent (o : OptimizerState) : Prop :=
  ∀ k, (o.m_weights k = none ∧ o.v_weights k = none ∧
          o.m_biases k = none ∧ o.v_biases k = none) ∨
       (∃ mw vw mb vb, o.m_weights k = some mw ∧ o.v_weights k = some vw ∧
          o.m_biases k = some mb ∧ o.v_biases k = some vb)

/-- One line of a persisted model/weights text file.  A line holding a
`%.17g`-printed double is modelled as carrying the exact value (`%.17g`
round-trips IEEE doubles exactly through `strtod`/`atof`); a
`WEIGHTS r c` / `BIASES r c` line is a tag plus two `%d` integers. -/
inductive FLine
  | text : String → FLine
  | int : ℤ → FLine
  | num : ℝ → FLine
  | dims : String → ℤ → ℤ → FLine

/-- `atoi` applied to a line.  Only integer lines are ever parsed as
integers by the repository's own files; `atoi` of any other line is
modelled as 0 (its value on non-numeric text). -/
def line_to_int : FLine → ℤ
  | .int k => k
  | _ => 0

/-- `atof` applied to a line: the stored double, an integer line's
value, or 0 for non-numeric text. -/
noncomputable def line_to_num : FLine → ℝ
  | .num x => x
  | .int k => (k : ℝ)
  | _ => 0

/-- The raw string content of a line read with `fgets` and used as a
name (non-text lines would yield their digit strings; the models'
name content never matters to any claim, so those are modelled as ""). -/
def line_text : FLine → String
  | .text s => s
  | _ => ""

/-- `sscanf(line, "TAG %d %d", &r, &c)` on a dims line: succeeds exactly
when the tag matches; a failed `sscanf` leaves `r`/`c` uninitialized and
the subsequent C reads are undefined behaviour, modelled as `none`. -/
def read_dims (expected : String) : FLine → Option (ℤ × ℤ)
  | .dims tag r c => if tag = expected then some (r, c) else none
  | _ => none

/-- The value-reading loops of the loaders: `count` consecutive
`fgets`+`atof` calls.  A truncated file (fgets failure / stale-buffer
reads) is modelled as `none`. -/
noncomputable def read_vals : ℕ → List FLine → Option (List ℝ × List FLine)
  | 0, rest => some ([], rest)
  | _ + 1, [] => none
  | n + 1, l :: rest =>
    match read_vals n rest with
    | none => none
    | some (vs, rest') => some (line_to_num l :: vs, rest')

/-- The row-major sequence of a matrix's entries, as written by the
nested save loops: entry `k` is `data[k / cols][k % cols]`. -/
def flat_vals (M : Matrix) : List ℝ :=
  (List.range (M.rows * M.cols)).map (fun k => M.data (k / M.cols) (k % M.cols))

/-- The value lines the savers emit for one matrix: one `%.17g` line per
entry, row-major. -/
noncomputable def matrix_lines (M : Matrix) : List FLine :=
  (flat_vals M).map FLine.num

/-- The loaders' write-back into an existing matrix:
`data[i][j] = vals[i*c + j]` for the `r × c` block declared by the file,
all other entries untouched. -/
def overwrite_matrix (M : Matrix) (r c : ℕ) (vals : List ℝ) : Matrix :=
  ⟨M.rows, M.cols, fun i j =>
    if i < r ∧ j < c then vals.getD (i * c + j) 0 else M.data i j⟩

/-- The C enum code of an activation (`%d` in the model file). -/
def Activation.toInt : Activation → ℤ
  | .linear => 0
  | .sigmoid => 1
  | .relu => 2
  | .tanh => 3
  | .softmax => 4

/-- The activation denoted by an `atoi` result (storing an out-of-range
code in the C enum is undefined; the fallback branch is never reached
from a saved file). -/
def Activation.ofInt (k : ℤ) : Activation :=
  if k = 0 then .linear
  else if k = 1 then .sigmoid
  else if k = 2 then .relu
  else if k = 3 then .tanh
  else .softmax

/-- The C enum code of an optimizer kind. -/
def Optimizer.toInt : Optimizer → ℤ
  | .sgd => 0
  | .adam => 1

/-- The optimizer kind denoted by an `atoi` result. -/
def Optimizer.ofInt (k : ℤ) : Optimizer :=
  if k = 0 then .sgd else .adam

/-- The C enum code of a loss kind. -/
def LossFunction.toInt : LossFunction → ℤ
  | .mean_squared_error => 0
  | .binary_crossentropy => 1
  | .categorical_crossentropy => 2

/-- The loss kind denoted by an `atoi` result. -/
def LossFunction.ofInt (k : ℤ) : LossFunction :=
  if k = 0 then .mean_squared_error
  else if k = 1 then .binary_crossentropy
  else .categorical_crossentropy

/-- The per-layer block `save_model` (models.c) writes: LAYER_START,
name, sizes, activation code, then the WEIGHTS and BIASES dims lines
each followed by their row-major `%.17g` values, then LAYER_END. -/
noncomputable def save_layer (l : Layer) : List FLine :=
  .text "LAYER_START" :: .text l.name :: .int (l.input_size : ℤ) ::
    .int (l.output_size : ℤ) :: .int l.activation.toInt ::
    .dims "WEIGHTS" (l.weights.rows : ℤ) (l.weights.cols : ℤ) ::
    (matrix_lines l.weights ++
      .dims "BIASES" (l.biases.rows : ℤ) (l.biases.cols : ℤ) ::
        (matrix_lines l.biases ++ [.text "LAYER_END"]))

/-- `save_model` (models.c): the `DEEPC_MODEL_V2` header, name, layer
count, compiled flag, optimizer/loss codes, `%.17g` learning rate, then
every layer's block in chain order. -/
noncomputable def save_model (m : SeqModel) : List FLine :=
  .text "DEEPC_MODEL_V2" :: .text m.name :: .int (m.num_layers : ℤ) ::
    .int (if m.is_compiled then 1 else 0) :: .int m.optimizer_type.toInt ::
    .int m.loss_function.toInt :: .num m.learning_rate ::
    (m.layers.map save_layer).flatten

/-- The layer-reading loop of `load_model` (models.c).  Per iteration:
consume the LAYER_START and name lines (contents unchecked), parse the
sizes and the activation code, build a `Dense` layer (whose
`LAYER_CHECK`s require positive sizes), then overwrite its weights and
biases with the file's `r × c` blocks and consume LAYER_END. -/
noncomputable def load_layers (init : ℕ → ℕ → ℝ) :
    ℕ → List FLine → Option (List Layer × List FLine)
  | 0, rest => some ([], rest)
  | n + 1, _lstart :: lname :: lin :: lout :: lact :: lwdims :: rest₂ =>
    let input_size := (line_to_int lin).toNat
    let output_size := (line_to_int lout).toNat
    if output_size = 0 ∨ input_size = 0 then none
    else
      let act := Activation.ofInt (line_to_int lact)
      let base := Dense output_size act input_size init
      match read_dims "WEIGHTS" lwdims with
      | none => none
      | some (wr, wc) =>
        match read_vals (wr.toNat * wc.toNat) rest₂ with
        | none => none
        | some (wvals, rest₃) =>
          match rest₃ with
          | lbdims :: rest₄ =>
            match read_dims "BIASES" lbdims with
            | none => none
            | some (br, bc) =>
              match read_vals (br.toNat * bc.toNat) rest₄ with
              | none => none
              | some (bvals, rest₅) =>
                match rest₅ with
                | _lend :: rest₆ =>
                  let layer := { base with
                    name := line_text lname
                    weights := overwrite_matrix base.weights wr.toNat wc.toNat wvals
                    biases := overwrite_matrix base.biases br.toNat bc.toNat bvals }
                  match load_layers init n rest₆ with
                  | none => none
                  | some (ls, rest₇) => some (layer :: ls, rest₇)
                | [] => none
          | [] => none
  | _ + 1, _ => none

/-- `load_model` (models.c): check the `DEEPC_MODEL_V2` header, read the
model header fields with `atoi`/`atof`, read `num_layers` layer blocks,
then rebuild the optimizer state when the file says the model was
compiled (`create_optimizer` aborts on a non-positive learning rate). -/
noncomputable def load_model (init : ℕ → ℕ → ℝ) (f : List FLine) :
    Option SeqModel :=
  match f with
  | .text hdr :: lname :: l2 :: l3 :: l4 :: l5 :: l6 :: rest =>
    if hdr = "DEEPC_MODEL_V2" then
      let nl := (line_to_int l2).toNat
      let ic := line_to_int l3 ≠ 0
      let opt := Optimizer.ofInt (line_to_int l4)
      let lf := LossFunction.ofInt (line_to_int l5)
      let lr := line_to_num l6
      match load_layers init nl rest with
      | none => none
      | some (layers, _) =>
        if ic then
          match create_optimizer opt lr with
          | none => none
          | some o =>
            some { name := line_text lname, layers := layers, num_layers := nl,
                   learning_rate := lr, loss_function := lf,
                   optimizer_type := opt, optimizer := some o,
                   is_compiled := true }
        else
          some { name := line_text lname, layers := layers, num_layers := nl,
                 learning_rate := lr, loss_function := lf,
                 optimizer_type := opt, optimizer := none,
                 is_compiled := false }
    else none
  | _ => none

/-- One weights-file block: the dims and row-major values of a layer's
weight and bias matrices (`DEEPC_WEIGHTS_V2` format has no layer
metadata). -/
structure WBlock where
  wr : ℕ
  wc : ℕ
  wvals : List ℝ
  br : ℕ
  bc : ℕ
  bvals : List ℝ

/-- Well-sized block: the value-line counts match the declared dims. -/
def WBlockSized (b : WBlock) : Prop :=
  b.wvals.length = b.wr * b.wc ∧ b.bvals.length = b.br * b.bc

/-- A block whose declared dims equal a layer's parameter shapes. -/
def wblock_matches (b : WBlock) (l : Layer) : Prop :=
  b.wr = l.weights.rows ∧ b.wc = l.weights.cols ∧
  b.br = l.biases.rows ∧ b.bc = l.biases.cols

/-- The lines of one weights-file block, as `save_weights` (models.c)
emits them. -/
noncomputable def wblock_lines (b : WBlock) : List FLine :=
  .dims "WEIGHTS" (b.wr : ℤ) (b.wc : ℤ) ::
    (b.wvals.map FLine.num ++
      .dims "BIASES" (b.br : ℤ) (b.bc : ℤ) :: b.bvals.map FLine.num)

/-- A weights file: `DEEPC_WEIGHTS_V2` header, layer count, then the
blocks. -/
noncomputable def weights_file (count : ℕ) (blocks : List WBlock) : List FLine :=
  .text "DEEPC_WEIGHTS_V2" :: .int (count : ℤ) ::
    (blocks.map wblock_lines).flatten

/-- A layer after `load_weights` has written a whole block into it. -/
def layer_overwritten (l : Layer) (b : WBlock) : Layer :=
  { l with weights := overwrite_matrix l.weights b.wr b.wc b.wvals
           biases := overwrite_matrix l.biases b.br b.bc b.bvals }

/-- A layer after `load_weights` has written only the weights block (the
state left behind when the biases dimension check then fails). -/
def layer_weights_overwritten (l : Layer) (b : WBlock) : Layer :=
  { l with weights := overwrite_matrix l.weights b.wr b.wc b.wvals }

/-- Test fixture: a two-layer 1→1→1 Linear model (weights `[[1]]` and
`[[2]]`), never compiled. -/
def example_two_layer_model : SeqModel :=
  { name := "m"
    layers := [Dense 1 .linear 1 (fun _ _ => 1), Dense 1 .linear 1 (fun _ _ => 2)]
    num_layers := 2
    learning_rate := 0.01
    loss_function := .mean_squared_error
    optimizer_type := .sgd
    optimizer := none
    is_compiled := false }

/-- Test fixture: a 1×1/1×1 weights-file block holding weight `5` and
bias `6` — it matches the fixture model's first layer. -/
def example_wblock_ok : WBlock := ⟨1, 1, [5], 1, 1, [6]⟩

/-- Test fixture: a block declaring 2×2 weights — a dimension mismatch
against the fixture model's 1×1 second layer. -/
def example_wblock_bad : WBlock := ⟨2, 2, [9, 9, 9, 9], 1, 1, [7]⟩

/-- The per-layer loop of `load_weights` (models.c).  For each of the
`count` iterations: fail if the model has run out of layers; read the
WEIGHTS dims line and compare against the current layer's shape,
returning immediately (weights of earlier layers already overwritten!)
on mismatch; write the weight values in place; same for BIASES; then
move to the next layer.  The boolean reports success. -/
noncomputable def load_weights_layers :
    ℕ → List Layer → List FLine → (List Layer × Bool)
  | 0, ls, _ => (ls, true)
  | _ + 1, [], _ => ([], false)
  | n + 1, l :: ls, f =>
    match f with
    | lwdims :: rest₁ =>
      match read_dims "WEIGHTS" lwdims with
      | none => (l :: ls, false)
      | some (wr, wc) =>
        if wr = (l.weights.rows : ℤ) ∧ wc = (l.weights.cols : ℤ) then
          match read_vals (wr.toNat * wc.toNat) rest₁ with
          | none => (l :: ls, false)
          | some (wvals, rest₂) =>
            let l1 := { l with
              weights := overwrite_matrix l.weights wr.toNat wc.toNat wvals }
            match rest₂ with
            | lbdims :: rest₃ =>
              match read_dims "BIASES" lbdims with
              | none => (l1 :: ls, false)
              | some (br, bc) =>
                if br = (l.biases.rows : ℤ) ∧ bc = (l.biases.cols : ℤ) then
                  match read_vals (br.toNat * bc.toNat) rest₃ with
                  | none => (l1 :: ls, false)
                  | some (bvals, rest₄) =>
                    let l2 := { l1 with
                      biases := overwrite_matrix l1.biases br.toNat bc.toNat bvals }
                    match load_weights_layers n ls rest₄ with
                    | (ls', ok) => (l2 :: ls', ok)
                else (l1 :: ls, false)
            | [] => (l1 :: ls, false)
        else (l :: ls, false)
    | [] => (l :: ls, false)

/-- `load_weights` (models.c): header check, layer-count check against
the already-constructed model, then the in-place per-layer loop.  The
function mutates the model as it goes and is not atomic on failure. -/
noncomputable def load_weights (model : SeqModel) (f : List FLine) :
    SeqModel × Bool :=
  match f with
  | .text hdr :: lcount :: rest =>
    if hdr = "DEEPC_WEIGHTS_V2" then
      if line_to_int lcount ≠ (model.num_layers : ℤ) then (model, false)
      else
        match load_weights_layers (line_to_int lcount).toNat model.layers rest with
        | (ls', ok) => ({ model with layers := ls' }, ok)
    else (model, false)
  | _ => (model, false)

/-- The layer `load_layers` reconstructs from `save_layer l`: a fresh
`Dense` layer of the saved sizes whose weights and biases are then
overwritten with the file's row-major values (the saved enum code is
decoded back to the activation). -/
noncomputable def loaded_layer (init : ℕ → ℕ → ℝ) (l : Layer) : Layer :=
  { Dense l.output_size (Activation.ofInt l.activation.toInt) l.input_size init with
      name := l.name
      weights := overwrite_matrix
        (Dense l.output_size (Activation.ofInt l.activation.toInt) l.input_size init).weights
        l.weights.rows l.weights.cols (flat_vals l.weights)
      biases := overwrite_matrix
        (Dense l.output_size (Activation.ofInt l.activation.toInt) l.input_size init).biases
        l.biases.rows l.biases.cols (flat_vals l.biases) }

/-- Shape discipline of a layer built by `Dense` and preserved by every
operation: parameter shapes match the declared sizes, which are
positive. -/
def LayerWF (l : Layer) : Prop :=
  l.weights.rows = l.output_size ∧ l.weights.cols = l.input_size ∧
  l.biases.rows = l.output_size ∧ l.biases.cols = 1 ∧
  0 < l.output_size ∧ 0 < l.input_size

/-- Well-formed model: the stored layer count is the chain length, every
layer is shape-disciplined, and a compiled model has the positive
learning rate `compile` enforced. -/
def ModelWF (m : SeqModel) : Prop :=
  m.num_layers = m.layers.length ∧ (∀ l ∈ m.layers, LayerWF l) ∧
  (m.is_compiled = true → 0 < m.learning_rate)

/-- The per-layer reconstruction guarantee of the save/load round trip:
same sizes and activation kind, and extensionally identical weight and
bias matrices. -/
def LayerMatch (l' l : Layer) : Prop :=
  l'.input_size = l.input_size ∧ l'.output_size = l.output_size ∧
  l'.activation = l.activation ∧
  Matrix.MEq l'.weights l.weights ∧ Matrix.MEq l'.biases l.biases

/-- C2: for matrices with matching inner dimension, `dot` succeeds, the
result has shape `(A.rows, B.cols)`, and entry `[i][j]` is
`Σ_k A[i][k]*B[k][j]` for every valid `i`, `j`. -/
theorem dot_spec (A B : Matrix) (h : A.cols = B.rows) :
    ∃ C : Matrix, dot A B = some C ∧ C.rows = A.rows ∧ C.cols = B.cols ∧
      ∀ i j, i < C.rows → j < C.cols →
        C.data i j = ∑ k ∈ Finset.range A.cols, A.data i k * B.data k j := by
  refine ⟨⟨A.rows, B.cols, fun i j => ∑ k ∈ Finset.range A.cols, A.data i k * B.data k j⟩,
    ?_, rfl, rfl, fun i j _ _ => rfl⟩
  simp [dot, h]

/-- Witness for C2: the product of two concrete 2×2 matrices. -/
theorem dot_spec_witness :
    ∃ C : Matrix,
      dot ⟨2, 2, fun i j => (i + 2 * j : ℕ)⟩ ⟨2, 2, fun i j => (1 + i + j : ℕ)⟩ = some C ∧
      C.rows = 2 ∧ C.cols = 2 ∧
      ∀ i j, i < C.rows → j < C.cols →
        C.data i j = ∑ k ∈ Finset.range 2,
          ((i + 2 * k : ℕ) : ℝ) * ((1 + k + j : ℕ) : ℝ) := by
  exact dot_spec ⟨2, 2, fun i j => (i + 2 * j : ℕ)⟩ ⟨2, 2, fun i j => (1 + i + j : ℕ)⟩ rfl

/-- C8: for every input matrix, the activation derivative with kind
Softmax has the same shape and every element equal to the constant 1. -/
theorem softmax_derivative_spec (m : Matrix) :
    (apply_activation_derivative m .softmax).rows = m.rows ∧
    (apply_activation_derivative m .softmax).cols = m.cols ∧
    ∀ i j, (apply_activation_derivative m .softmax).data i j = 1 :=
  ⟨rfl, rfl, fun _ _ => rfl⟩

/-- C3: for an input whose width matches the layer, `forward_pass`
computes `z = input·weightsᵗ + bias` (bias column broadcast across the
batch rows), caches the input, `z` and the activated output, and returns
`activation(z)`; and in particular a single Linear layer with weights
`[[1,1]]`, bias `[0]` maps `[[1,2]]` to `[[3]]`. -/
theorem forward_pass_spec :
    (∀ (layer : Layer) (input : Matrix),
      input.cols = layer.input_size →
      layer.weights.rows = layer.output_size →
      layer.weights.cols = layer.input_size →
      ∃ l' z out,
        forward_pass layer input = some (l', out) ∧
        z.rows = input.rows ∧ z.cols = layer.output_size ∧
        (∀ i j, i < input.rows → j < layer.output_size →
          z.data i j = (∑ k ∈ Finset.range layer.input_size,
            input.data i k * layer.weights.data j k) + layer.biases.data j 0) ∧
        l'.input = some input ∧ l'.z = some z ∧
        out = apply_activation z layer.activation ∧ l'.output = some out) ∧
    (∃ l' out,
      forward_pass (Dense 1 .linear 2 (fun _ _ => 1))
          ⟨1, 2, fun _ j => if j = 0 then 1 else 2⟩ = some (l', out) ∧
      out.rows = 1 ∧ out.cols = 1 ∧ out.data 0 0 = 3) := by
  have hgen : ∀ (layer : Layer) (input : Matrix),
      input.cols = layer.input_size →
      layer.weights.rows = layer.output_size →
      layer.weights.cols = layer.input_size →
      ∃ l' z out,
        forward_pass layer input = some (l', out) ∧
        z.rows = input.rows ∧ z.cols = layer.output_size ∧
        (∀ i j, i < input.rows → j < layer.output_size →
          z.data i j = (∑ k ∈ Finset.range layer.input_size,
            input.data i k * layer.weights.data j k) + layer.biases.data j 0) ∧
        l'.input = some input ∧ l'.z = some z ∧
        out = apply_activation z layer.activation ∧ l'.output = some out := by
    intro layer input hin hw hwc
    have hdot : dot input (transpose layer.weights) =
        some ⟨input.rows, layer.weights.rows,
          fun i j => ∑ k ∈ Finset.range input.cols,
            input.data i k * layer.weights.data j k⟩ := by
      simp [dot, transpose, hin, hwc]
    have hfp : forward_pass layer input =
        some ({ layer with
                  input := some input
                  z := some ⟨input.rows, layer.weights.rows,
                    fun i j => (∑ k ∈ Finset.range input.cols,
                      input.data i k * layer.weights.data j k) + layer.biases.data j 0⟩
                  output := some (apply_activation
                    ⟨input.rows, layer.weights.rows,
                      fun i j => (∑ k ∈ Finset.range input.cols,
                        input.data i k * layer.weights.data j k) + layer.biases.data j 0⟩
                    layer.activation) },
              apply_activation
                ⟨input.rows, layer.weights.rows,
                  fun i j => (∑ k ∈ Finset.range input.cols,
                    input.data i k * layer.weights.data j k) + layer.biases.data j 0⟩
                layer.activation) := by
      simp only [forward_pass, hdot]
      rw [if_pos hin]
      rfl
    refine ⟨_, ⟨input.rows, layer.weights.rows,
      fun i j => (∑ k ∈ Finset.range input.cols,
        input.data i k * layer.weights.data j k) + layer.biases.data j 0⟩,
      _, hfp, rfl, hw, fun i j _ _ => by simp [hin], rfl, rfl, rfl, rfl⟩
  refine ⟨hgen, ?_⟩
  obtain ⟨l', z, out, h1, h2, h3, h4, _, _, h7, _⟩ :=
    hgen (Dense 1 .linear 2 (fun _ _ => 1))
      ⟨1, 2, fun _ j => if j = 0 then 1 else 2⟩ rfl rfl rfl
  have hz00 : z.data 0 0 = 3 := by
    have := h4 0 0 Nat.one_pos Nat.one_pos
    rw [this]
    simp [Dense, create_matrix, Finset.sum_range_succ]
    norm_num
  refine ⟨l', out, h1, ?_, ?_, ?_⟩
  · rw [h7]; simpa [apply_activation, Dense] using h2
  · rw [h7]; simpa [apply_activation, Dense] using h3
  · rw [h7]
    show (apply_activation z (Dense 1 .linear 2 (fun _ _ => 1)).activation).data 0 0 = 3
    simpa [apply_activation, Dense] using hz00

/-- Witness for C3: the concrete clause of the theorem, extracted — a
single Linear layer with weights `[[1,1]]`, bias `[0]` maps `[[1,2]]`
to `[[3]]`. -/
theorem forward_pass_spec_witness :
    ∃ l' out,
      forward_pass (Dense 1 .linear 2 (fun _ _ => 1))
          ⟨1, 2, fun _ j => if j = 0 then 1 else 2⟩ = some (l', out) ∧
      out.rows = 1 ∧ out.cols = 1 ∧ out.data 0 0 = 3 :=
  forward_pass_spec.2

/-- C1: with a cached input and pre-activation `z`, `backward_pass`
computes `delta = G ⊙ activation_derivative(z)`, stores
`deltaᵗ·input / batch_size` into the weight-gradient buffer and the
per-output-unit batch mean of `delta` into the bias-gradient buffer, and
returns `delta · weights` (weights un-transposed). -/
theorem backward_pass_spec (layer : Layer) (G z inp : Matrix)
    (hz : layer.z = some z) (hinp : layer.input = some inp)
    (hG : G.cols = layer.output_size)
    (hw : layer.weights.rows = layer.output_size) :
    ∃ l' gin,
      backward_pass layer G = some (l', gin) ∧
      l'.dweights.rows = layer.dweights.rows ∧
      l'.dweights.cols = layer.dweights.cols ∧
      (∀ i j, i < layer.dweights.rows → j < layer.dweights.cols →
        l'.dweights.data i j
          = (∑ k ∈ Finset.range G.rows,
              (G.data k i * (apply_activation_derivative z layer.activation).data k i)
                * inp.data k j) / (G.rows : ℝ)) ∧
      (∀ i, i < layer.dbiases.rows →
        l'.dbiases.data i 0
          = (∑ k ∈ Finset.range G.rows,
              G.data k i * (apply_activation_derivative z layer.activation).data k i)
            / (G.rows : ℝ)) ∧
      gin.rows = G.rows ∧ gin.cols = layer.weights.cols ∧
      (∀ i j, i < G.rows → j < layer.weights.cols →
        gin.data i j = ∑ k ∈ Finset.range layer.output_size,
          (G.data i k * (apply_activation_derivative z layer.activation).data i k)
            * layer.weights.data k j) := by
  have hdot : dot ⟨G.rows, G.cols, fun i j =>
        G.data i j * (apply_activation_derivative z layer.activation).data i j⟩
        layer.weights =
      some ⟨G.rows, layer.weights.cols, fun i j => ∑ k ∈ Finset.range G.cols,
        (G.data i k * (apply_activation_derivative z layer.activation).data i k)
          * layer.weights.data k j⟩ := by
    simp [dot, hG, hw]
  have hbp : backward_pass layer G =
      some ({ layer with
                dweights := ⟨layer.dweights.rows, layer.dweights.cols,
                  fun i j => (∑ k ∈ Finset.range G.rows,
                    (G.data k i * (apply_activation_derivative z layer.activation).data k i)
                      * inp.data k j) / (G.rows : ℝ)⟩
                dbiases := ⟨layer.dbiases.rows, layer.dbiases.cols,
                  fun i j => if j = 0 then
                    (∑ k ∈ Finset.range G.rows,
                      G.data k i * (apply_activation_derivative z layer.activation).data k i)
                      / (G.rows : ℝ)
                  else layer.dbiases.data i j⟩ },
            ⟨G.rows, layer.weights.cols, fun i j => ∑ k ∈ Finset.range G.cols,
              (G.data i k * (apply_activation_derivative z layer.activation).data i k)
                * layer.weights.data k j⟩) := by
    simp only [backward_pass, hz, hinp, hdot]
    rfl
  refine ⟨_, _, hbp, rfl, rfl, fun i j _ _ => rfl, fun i _ => by simp, rfl, rfl, ?_⟩
  intro i j _ _
  rw [← hG]

/-- Witness for C1: a concrete 1→1 Linear layer with cached input `[[3]]`,
`z = [[7]]`, weights `[[5]]`, and incoming gradient `[[2]]`: the weight
gradient is `6 = 2·1·3/1`, the bias gradient `2`, and the propagated
gradient `10 = 2·1·5`. -/
theorem backward_pass_spec_witness :
    ∃ l' gin,
      backward_pass
        { Dense 1 .linear 1 (fun _ _ => 5) with
            input := some ⟨1, 1, fun _ _ => 3⟩
            z := some ⟨1, 1, fun _ _ => 7⟩ }
        ⟨1, 1, fun _ _ => 2⟩ = some (l', gin) ∧
      l'.dweights.data 0 0 = 6 ∧ l'.dbiases.data 0 0 = 2 ∧
      gin.data 0 0 = 10 := by
  obtain ⟨l', gin, h1, _, _, h4, h5, _, _, h8⟩ := backward_pass_spec
    { Dense 1 .linear 1 (fun _ _ => 5) with
        input := some ⟨1, 1, fun _ _ => 3⟩
        z := some ⟨1, 1, fun _ _ => 7⟩ }
    ⟨1, 1, fun _ _ => 2⟩ ⟨1, 1, fun _ _ => 7⟩ ⟨1, 1, fun _ _ => 3⟩
    rfl rfl rfl rfl
  refine ⟨l', gin, h1, ?_, ?_, ?_⟩
  · have := h4 0 0 Nat.one_pos Nat.one_pos
    rw [this]
    simp [Dense, apply_activation_derivative, Finset.sum_range_one]
    norm_num
  · have := h5 0 Nat.one_pos
    rw [this]
    simp [Dense, apply_activation_derivative, Finset.sum_range_one]
  · have := h8 0 0 Nat.one_pos Nat.one_pos
    rw [this]
    simp [Dense, apply_activation_derivative, Finset.sum_range_one]
    norm_num

/-- C9: for same-shaped `y_true`, `y_pred` (NaN-free is automatic in the
real embedding), the MSE loss is the mean of squared differences over
all `N` elements and the MSE gradient is `2*(pred-true)/N`; in
particular `MSE([[1]],[[3]]) = 4` with gradient `[[4]]`. -/
theorem mse_spec :
    (∀ y_true y_pred : Matrix,
      y_true.rows = y_pred.rows → y_true.cols = y_pred.cols →
      compute_loss y_true y_pred .mean_squared_error
        = some ((∑ i ∈ Finset.range y_true.rows, ∑ j ∈ Finset.range y_true.cols,
            (y_true.data i j - y_pred.data i j) * (y_true.data i j - y_pred.data i j))
          / ((y_true.rows * y_true.cols : ℕ) : ℝ)) ∧
      ∃ g, compute_loss_gradient y_true y_pred .mean_squared_error = some g ∧
        g.rows = y_true.rows ∧ g.cols = y_true.cols ∧
        ∀ i j, i < y_true.rows → j < y_true.cols →
          g.data i j = 2 * (y_pred.data i j - y_true.data i j)
            / ((y_true.rows * y_true.cols : ℕ) : ℝ)) ∧
    (compute_loss ⟨1, 1, fun _ _ => 1⟩ ⟨1, 1, fun _ _ => 3⟩ .mean_squared_error
        = some 4 ∧
     ∃ g, compute_loss_gradient ⟨1, 1, fun _ _ => 1⟩ ⟨1, 1, fun _ _ => 3⟩
        .mean_squared_error = some g ∧ g.data 0 0 = 4) := by
  have hgen : ∀ y_true y_pred : Matrix,
      y_true.rows = y_pred.rows → y_true.cols = y_pred.cols →
      compute_loss y_true y_pred .mean_squared_error
        = some ((∑ i ∈ Finset.range y_true.rows, ∑ j ∈ Finset.range y_true.cols,
            (y_true.data i j - y_pred.data i j) * (y_true.data i j - y_pred.data i j))
          / ((y_true.rows * y_true.cols : ℕ) : ℝ)) ∧
      ∃ g, compute_loss_gradient y_true y_pred .mean_squared_error = some g ∧
        g.rows = y_true.rows ∧ g.cols = y_true.cols ∧
        ∀ i j, i < y_true.rows → j < y_true.cols →
          g.data i j = 2 * (y_pred.data i j - y_true.data i j)
            / ((y_true.rows * y_true.cols : ℕ) : ℝ) := by
    intro t p h1 h2
    refine ⟨?_, mse_gradient t p, ?_, rfl, rfl, fun i j _ _ => rfl⟩
    · simp [compute_loss, matrix_has_nan, h1, h2, mse_loss]
    · simp [compute_loss_gradient, matrix_has_nan, h1, h2]
  refine ⟨hgen, ?_, ?_⟩
  · have := (hgen ⟨1, 1, fun _ _ => 1⟩ ⟨1, 1, fun _ _ => 3⟩ rfl rfl).1
    rw [this]
    norm_num
  · obtain ⟨-, g, hg, -, -, hentry⟩ :=
      hgen ⟨1, 1, fun _ _ => 1⟩ ⟨1, 1, fun _ _ => 3⟩ rfl rfl
    refine ⟨g, hg, ?_⟩
    have := hentry 0 0 Nat.one_pos Nat.one_pos
    rw [this]
    norm_num

/-- Witness for C9: the general clause instantiated at
`y_true = [[1]]`, `y_pred = [[3]]`. -/
theorem mse_spec_witness :
    compute_loss ⟨1, 1, fun _ _ => 1⟩ ⟨1, 1, fun _ _ => 3⟩ .mean_squared_error
      = some ((∑ _i ∈ Finset.range 1, ∑ _j ∈ Finset.range 1,
          ((1 : ℝ) - 3) * ((1 : ℝ) - 3)) / ((1 * 1 : ℕ) : ℝ)) ∧
    ∃ g, compute_loss_gradient ⟨1, 1, fun _ _ => 1⟩ ⟨1, 1, fun _ _ => 3⟩
        .mean_squared_error = some g ∧
      g.rows = 1 ∧ g.cols = 1 ∧
      ∀ i j, i < 1 → j < 1 →
        g.data i j = 2 * ((3 : ℝ) - 1) / ((1 * 1 : ℕ) : ℝ) :=
  mse_spec.1 ⟨1, 1, fun _ _ => 1⟩ ⟨1, 1, fun _ _ => 3⟩ rfl rfl

/-- Helper: `adam_step_state` preserves the joint allocation of the four
moment slots. -/
theorem adam_step_state_slots (o2 : OptimizerState) (idx : ℕ) (layer : Layer)
    (mw vw mb vb : Matrix) (h : o2.SlotsConsistent) :
    (adam_step_state o2 idx layer mw vw mb vb).SlotsConsistent := by
  intro k
  by_cases hk : k = idx
  · subst hk
    right
    exact ⟨adam_new_mw o2 layer mw, adam_new_vw o2 layer vw,
      adam_new_mb o2 layer mb, adam_new_vb o2 layer vb,
      by simp [adam_step_state], by simp [adam_step_state],
      by simp [adam_step_state], by simp [adam_step_state]⟩
  · rcases h k with ⟨h1, h2, h3, h4⟩ | ⟨a, b, c, d, h1, h2, h3, h4⟩
    · left
      simp [adam_step_state, hk, h1, h2, h3, h4]
    · right
      exact ⟨a, b, c, d, by simp [adam_step_state, hk, h1],
        by simp [adam_step_state, hk, h2], by simp [adam_step_state, hk, h3],
        by simp [adam_step_state, hk, h4]⟩

/-- Helper for the Adam claims: a single `update_weights` invocation on
an Adam optimizer state with a free or consistently-allocated slot
succeeds, advances the shared timestep by exactly one, preserves the
kind / capacity / slot-consistency, and steps each weight with the
bias corrections `1-β1^(t+1)`, `1-β2^(t+1)` taken at the incremented
timestep. -/
theorem adam_update_step (layer : Layer) (o : OptimizerState) (idx : ℕ)
    (htype : o.type = .adam) (hslots : o.SlotsConsistent)
    (hidx : idx < o.max_layers) :
    ∃ l' o', update_weights layer o idx = some (l', o') ∧
      o'.timestep = o.timestep + 1 ∧
      o'.type = o.type ∧ o'.max_layers = o.max_layers ∧
      o'.SlotsConsistent ∧
      (∀ i j, i < layer.weights.rows → j < layer.weights.cols →
        l'.weights.data i j = layer.weights.data i j -
          o.learning_rate * ((o.beta1 * (moment_or_zero (o.m_weights idx)
              layer.weights.rows layer.weights.cols).data i j +
            (1 - o.beta1) * layer.dweights.data i j) / (1 - o.beta1 ^ (o.timestep + 1)))
          / (Real.sqrt ((o.beta2 * (moment_or_zero (o.v_weights idx)
              layer.weights.rows layer.weights.cols).data i j +
            (1 - o.beta2) * layer.dweights.data i j * layer.dweights.data i j)
            / (1 - o.beta2 ^ (o.timestep + 1))) + o.epsilon)) := by
  rcases hslots idx with ⟨hmw, hvw, hmb, hvb⟩ | ⟨mw, vw, mb, vb, hmw, hvw, hmb, hvb⟩
  · refine ⟨adam_step_layer layer
        { o with timestep := o.timestep + 1
                 m_weights := fun k => if k = idx then
                   some (create_matrix layer.weights.rows layer.weights.cols)
                   else o.m_weights k
                 v_weights := fun k => if k = idx then
                   some (create_matrix layer.weights.rows layer.weights.cols)
                   else o.v_weights k
                 m_biases := fun k => if k = idx then
                   some (create_matrix layer.biases.rows layer.biases.cols)
                   else o.m_biases k
                 v_biases := fun k => if k = idx then
                   some (create_matrix layer.biases.rows layer.biases.cols)
                   else o.v_biases k }
        (create_matrix layer.weights.rows layer.weights.cols)
        (create_matrix layer.weights.rows layer.weights.cols)
        (create_matrix layer.biases.rows layer.biases.cols)
        (create_matrix layer.biases.rows layer.biases.cols),
      adam_step_state
        { o with timestep := o.timestep + 1
                 m_weights := fun k => if k = idx then
                   some (create_matrix layer.weights.rows layer.weights.cols)
                   else o.m_weights k
                 v_weights := fun k => if k = idx then
                   some (create_matrix layer.weights.rows layer.weights.cols)
                   else o.v_weights k
                 m_biases := fun k => if k = idx then
                   some (create_matrix layer.biases.rows layer.biases.cols)
                   else o.m_biases k
                 v_biases := fun k => if k = idx then
                   some (create_matrix layer.biases.rows layer.biases.cols)
                   else o.v_biases k } idx layer
        (create_matrix layer.weights.rows layer.weights.cols)
        (create_matrix layer.weights.rows layer.weights.cols)
        (create_matrix layer.biases.rows layer.biases.cols)
        (create_matrix layer.biases.rows layer.biases.cols), ?_, rfl, rfl, rfl, ?_, ?_⟩
    · simp only [update_weights, htype, update_weights_adam, initialize_adam_moments,
        if_pos hidx, hmw]
      rfl
    · refine adam_step_state_slots _ idx layer _ _ _ _ ?_
      intro k2
      by_cases hk2 : k2 = idx
      · subst hk2
        right
        exact ⟨create_matrix layer.weights.rows layer.weights.cols,
          create_matrix layer.weights.rows layer.weights.cols,
          create_matrix layer.biases.rows layer.biases.cols,
          create_matrix layer.biases.rows layer.biases.cols,
          by simp, by simp, by simp, by simp⟩
      · rcases hslots k2 with ⟨h1, h2, h3, h4⟩ | ⟨a, b, c, d, h1, h2, h3, h4⟩
        · left
          simp [hk2, h1, h2, h3, h4]
        · right
          exact ⟨a, b, c, d, by simp [hk2, h1], by simp [hk2, h2],
            by simp [hk2, h3], by simp [hk2, h4]⟩
    · intro i j _ _
      simp only [moment_or_zero, hmw, hvw, Option.getD_none]
      rfl
  · refine ⟨adam_step_layer layer { o with timestep := o.timestep + 1 } mw vw mb vb,
      adam_step_state { o with timestep := o.timestep + 1 } idx layer mw vw mb vb,
      ?_, rfl, rfl, rfl, ?_, ?_⟩
    · simp only [update_weights, htype, update_weights_adam, initialize_adam_moments,
        if_pos hidx, hmw, hvw, hmb, hvb]
    · exact adam_step_state_slots _ idx layer _ _ _ _ (fun k2 => hslots k2)
    · intro i j _ _
      simp only [moment_or_zero, hmw, hvw, Option.getD_some]
      rfl

/-- C5: under the Adam optimizer, each `update_weights` invocation for a
single layer increments the shared timestep by exactly 1 (and the bias
corrections `1-β1^t`, `1-β2^t` of that invocation use the incremented
count `t = timestep+1`); consequently one pass of the layer-update loop
over `L` layers advances the timestep by `L`. -/
theorem adam_shared_timestep_spec :
    (∀ (layer : Layer) (o : OptimizerState) (idx : ℕ),
      o.type = .adam → o.SlotsConsistent → idx < o.max_layers →
      ∃ l' o', update_weights layer o idx = some (l', o') ∧
        o'.timestep = o.timestep + 1 ∧
        (∀ i j, i < layer.weights.rows → j < layer.weights.cols →
          l'.weights.data i j = layer.weights.data i j -
            o.learning_rate * ((o.beta1 * (moment_or_zero (o.m_weights idx)
                layer.weights.rows layer.weights.cols).data i j +
              (1 - o.beta1) * layer.dweights.data i j) / (1 - o.beta1 ^ (o.timestep + 1)))
            / (Real.sqrt ((o.beta2 * (moment_or_zero (o.v_weights idx)
                layer.weights.rows layer.weights.cols).data i j +
              (1 - o.beta2) * layer.dweights.data i j * layer.dweights.data i j)
              / (1 - o.beta2 ^ (o.timestep + 1))) + o.epsilon))) ∧
    (∀ (layers : List Layer) (o : OptimizerState) (idx : ℕ),
      o.type = .adam → o.SlotsConsistent → idx + layers.length ≤ o.max_layers →
      ∃ ls' o', update_layers layers o idx = some (ls', o') ∧
        o'.timestep = o.timestep + layers.length) := by
  constructor
  · intro layer o idx htype hslots hidx
    obtain ⟨l', o', heq, ht, -, -, -, hform⟩ :=
      adam_update_step layer o idx htype hslots hidx
    exact ⟨l', o', heq, ht, hform⟩
  · intro layers
    induction layers with
    | nil =>
      intro o idx _ _ _
      exact ⟨[], o, rfl, by simp⟩
    | cons l ls ih =>
      intro o idx htype hslots hbound
      have hidx : idx < o.max_layers := by
        simp only [List.length_cons] at hbound
        omega
      obtain ⟨l', o', heq, ht, htype', hmax', hslots', -⟩ :=
        adam_update_step l o idx htype hslots hidx
      have hbound' : (idx + 1) + ls.length ≤ o'.max_layers := by
        rw [hmax']
        simp only [List.length_cons] at hbound
        omega
      obtain ⟨ls', o'', heq', ht'⟩ :=
        ih o' (idx + 1) (htype'.trans htype) hslots' hbound'
      refine ⟨l' :: ls', o'', ?_, ?_⟩
      · simp only [update_layers, heq, heq']
      · rw [ht', ht]
        simp only [List.length_cons]
        omega

/-- Witness for C5: a fresh Adam optimizer state (timestep 0) updated
across a 2-layer model ends with timestep 2, advancing by the number of
layers. -/
theorem adam_shared_timestep_spec_witness :
    ∃ ls' o', update_layers
      [Dense 1 .linear 1 (fun _ _ => 0), Dense 1 .linear 1 (fun _ _ => 0)]
      { type := .adam, learning_rate := 0.1, beta1 := 0.9, beta2 := 0.999,
        epsilon := 1e-8, timestep := 0, max_layers := 100,
        m_weights := fun _ => none, v_weights := fun _ => none,
        m_biases := fun _ => none, v_biases := fun _ => none } 0 = some (ls', o') ∧
      o'.timestep = 0 + 2 := by
  exact adam_shared_timestep_spec.2
    [Dense 1 .linear 1 (fun _ _ => 0), Dense 1 .linear 1 (fun _ _ => 0)]
    { type := .adam, learning_rate := 0.1, beta1 := 0.9, beta2 := 0.999,
      epsilon := 1e-8, timestep := 0, max_layers := 100,
      m_weights := fun _ => none, v_weights := fun _ => none,
      m_biases := fun _ => none, v_biases := fun _ => none } 0
    rfl (fun _ => Or.inl ⟨rfl, rfl, rfl, rfl⟩) (by norm_num)

/-- Helper: the ceiling division `num_batches` covers all samples:
`n ≤ ⌈n/B⌉ * B`. -/
theorem le_num_batches_mul (n B : ℕ) (hB : 0 < B) : n ≤ num_batches n B * B := by
  unfold num_batches
  rw [Nat.mul_comm]
  have hdm := Nat.div_add_mod (n + B - 1) B
  have hmod : (n + B - 1) % B < B := Nat.mod_lt _ hB
  omega

/-- Helper: every batch index below `num_batches` starts strictly inside
the sample range. -/
theorem mul_lt_of_lt_num_batches (n B k : ℕ) (hB : 0 < B)
    (hk : k < num_batches n B) : k * B < n := by
  by_contra hcon
  push_neg at hcon
  have h3 : (k + 1) * B = k * B + B := by ring
  have h2 : n + B - 1 < (k + 1) * B := by omega
  have hle : num_batches n B < k + 1 := by
    unfold num_batches
    exact (Nat.div_lt_iff_lt_mul hB).mpr h2
  omega

/-- Helper: a batch's row list is the contiguous range
`[b*B, batch_end)`. -/
theorem fit_batch_rows_eq_range' (n B b : ℕ) :
    fit_batch_rows n B b = List.range' (b * B) (batch_end n B b - b * B) := by
  unfold fit_batch_rows
  rw [List.range'_eq_map_range]

/-- Helper: concatenating the whole batch schedule recovers
`[0, 1, ..., n-1]` in order. -/
theorem fit_batches_join (n B : ℕ) (hB : 0 < B) :
    (fit_batches n B).flatten = List.range n := by
  have key : ∀ k, k ≤ num_batches n B →
      ((List.range k).map (fit_batch_rows n B)).flatten
        = List.range' 0 (min (k * B) n) := by
    intro k
    induction k with
    | zero => intro _; simp
    | succ k ih =>
      intro hk
      have hk' : k ≤ num_batches n B := by omega
      have hkb : k * B < n := mul_lt_of_lt_num_batches n B k hB (by omega)
      rw [List.range_succ, List.map_append, List.flatten_append, ih hk']
      simp only [List.map_cons, List.map_nil, List.flatten_cons, List.flatten_nil,
        List.append_nil]
      rw [fit_batch_rows_eq_range']
      have hmin : min (k * B) n = k * B := Nat.min_eq_left (le_of_lt hkb)
      rw [hmin]
      have happ := List.range'_append_1 0 (k * B) (batch_end n B k - k * B)
      rw [Nat.zero_add] at happ
      rw [happ]
      have h3 : (k + 1) * B = k * B + B := by ring
      unfold batch_end
      congr 1
      omega
  have hnb := key (num_batches n B) le_rfl
  unfold fit_batches
  rw [hnb, Nat.min_eq_right (le_num_batches_mul n B hB), ← List.range_eq_range']

/-- C4: `fit` validates compilation and `X.rows == y.rows`, replaces any
batch size `≤ 0` or `> num_samples` by the full sample count, and each
epoch processes the samples as contiguous, non-overlapping, in-order
batches of that size — the concatenated schedule is exactly
`[0, ..., n-1]`, every non-final batch has exactly `batch_size` rows and
the final one at most that many; no shuffling occurs inside `fit`. -/
theorem fit_batching_spec :
    (∀ (model : SeqModel) (X y : Matrix) (epochs : ℕ) (batch_size : ℤ),
      model.is_compiled = true → X.rows = y.rows →
      fit model X y epochs batch_size =
        run_epochs X y (fit_batches X.rows (fit_batch_size X.rows batch_size))
          model epochs) ∧
    (∀ (n : ℕ) (batch_size : ℤ), 0 < n →
      (1 ≤ fit_batch_size n batch_size ∧ fit_batch_size n batch_size ≤ n) ∧
      ((batch_size ≤ 0 ∨ (n : ℤ) < batch_size) → fit_batch_size n batch_size = n) ∧
      (fit_batches n (fit_batch_size n batch_size)).flatten = List.range n ∧
      (∀ b, b + 1 < num_batches n (fit_batch_size n batch_size) →
        (fit_batch_rows n (fit_batch_size n batch_size) b).length
          = fit_batch_size n batch_size) ∧
      (∀ b, b < num_batches n (fit_batch_size n batch_size) →
        (fit_batch_rows n (fit_batch_size n batch_size) b).length
          ≤ fit_batch_size n batch_size)) := by
  constructor
  · intro model X y epochs batch_size hc hxy
    simp [fit, hc, hxy]
  · intro n batch_size hn
    have hbounds : 1 ≤ fit_batch_size n batch_size ∧ fit_batch_size n batch_size ≤ n := by
      unfold fit_batch_size
      by_cases hcond : batch_size ≤ 0 ∨ (n : ℤ) < batch_size
      · rw [if_pos hcond]; omega
      · rw [if_neg hcond]; push_neg at hcond; omega
    have hB : 0 < fit_batch_size n batch_size := hbounds.1
    refine ⟨hbounds, ?_, fit_batches_join n _ hB, ?_, ?_⟩
    · intro h
      unfold fit_batch_size
      rw [if_pos h]
    · intro b hb
      have hb1 : (b + 1) * fit_batch_size n batch_size < n :=
        mul_lt_of_lt_num_batches n _ (b + 1) hB hb
      unfold fit_batch_rows
      rw [List.length_map, List.length_range]
      unfold batch_end
      have h3 : (b + 1) * fit_batch_size n batch_size
          = b * fit_batch_size n batch_size + fit_batch_size n batch_size := by ring
      omega
    · intro b hb
      unfold fit_batch_rows
      rw [List.length_map, List.length_range]
      unfold batch_end
      have h3 : (b + 1) * fit_batch_size n batch_size
          = b * fit_batch_size n batch_size + fit_batch_size n batch_size := by ring
      omega

/-- Witness for C4: a 2-epoch fit call with invalid batch size `-3`
reduces to the epoch loop over the clamped schedule, and the schedule
for 10 samples with batch size 4 enumerates `0..9` exactly once in
order. -/
theorem fit_batching_spec_witness :
    fit example_compiled_model example_unit_matrix example_unit_matrix 2 (-3)
      = run_epochs example_unit_matrix example_unit_matrix
          (fit_batches 1 (fit_batch_size 1 (-3))) example_compiled_model 2 ∧
    (fit_batches 10 (fit_batch_size 10 4)).flatten = List.range 10 :=
  ⟨fit_batching_spec.1 example_compiled_model example_unit_matrix
      example_unit_matrix 2 (-3) rfl rfl,
    ((fit_batching_spec.2 10 4 (by norm_num)).2.2).1⟩

/-- Helper: evaluating the never-compiled fixture model succeeds and
returns MSE loss `0` — `evaluate` has no `is_compiled` gate. -/
theorem evaluate_uncompiled_value :
    evaluate example_uncompiled_model example_unit_matrix example_unit_matrix
      = some 0 := by
  simp only [evaluate, predict, example_uncompiled_model, example_unit_matrix,
    predict_layers, forward_pass, dot, transpose, Dense, copy_matrix,
    create_matrix, apply_activation, compute_loss, matrix_has_nan, mse_loss]
  norm_num [Finset.sum_range_one]

/-- Counterexample to C7 as stated: `evaluate` on a model that has never
been compiled does not fail — it proceeds, returning the loss `some 0`
for the fixture model (the C code's `evaluate` checks only for NULL
arguments, not `is_compiled`). -/
theorem evaluate_uncompiled_counterexample :
    example_uncompiled_model.is_compiled = false ∧
    evaluate example_uncompiled_model example_unit_matrix example_unit_matrix
      = some 0 :=
  ⟨rfl, evaluate_uncompiled_value⟩

/-- C7 (amended): `fit` requires `is_compiled` and performs no training
on an uncompiled model; `evaluate`, however, has no compilation gate —
it is exactly one forward pass plus loss computation regardless of the
compiled flag, and succeeds on the never-compiled fixture model. -/
theorem compile_gate_spec :
    (∀ (model : SeqModel) (X y : Matrix) (epochs : ℕ) (batch_size : ℤ),
      model.is_compiled = false → fit model X y epochs batch_size = none) ∧
    (∀ (model : SeqModel) (X y : Matrix) (res : SeqModel × Matrix),
      predict model X = some res →
      evaluate model X y = compute_loss y res.2 model.loss_function) ∧
    (evaluate example_uncompiled_model example_unit_matrix example_unit_matrix
      = some 0) := by
  refine ⟨?_, ?_, evaluate_uncompiled_value⟩
  · intro model X y epochs batch_size h
    simp [fit, h]
  · intro model X y res h
    simp only [evaluate, h]

/-- Witness for C7 (amended): the fixture uncompiled model — `fit`
refuses to train it, while `evaluate` computes its loss. -/
theorem compile_gate_spec_witness :
    fit example_uncompiled_model example_unit_matrix example_unit_matrix 1 1
      = none ∧
    evaluate example_uncompiled_model example_unit_matrix example_unit_matrix
      = some 0 :=
  ⟨compile_gate_spec.1 example_uncompiled_model example_unit_matrix
      example_unit_matrix 1 1 rfl,
    compile_gate_spec.2.2⟩

/-- Helper: reading exactly the number of emitted value lines returns
the values and leaves the tail untouched. -/
theorem read_vals_append (vs : List ℝ) (rest : List FLine) :
    read_vals vs.length (vs.map FLine.num ++ rest) = some (vs, rest) := by
  induction vs with
  | nil => simp [read_vals]
  | cons x vs ih => simp [read_vals, ih, line_to_num]

/-- Helper: `flat_vals` has one entry per matrix element. -/
theorem flat_vals_length (M : Matrix) :
    (flat_vals M).length = M.rows * M.cols := by
  simp [flat_vals]

/-- Helper: reading a saved matrix block returns its row-major values. -/
theorem read_vals_matrix (M : Matrix) (tail : List FLine) :
    read_vals (M.rows * M.cols) (matrix_lines M ++ tail) = some (flat_vals M, tail) := by
  have h := read_vals_append (flat_vals M) tail
  rwa [flat_vals_length] at h

/-- Helper: the row-major flattening is indexed by `i*cols + j`. -/
theorem flat_vals_getD (M : Matrix) (i j : ℕ) (hi : i < M.rows) (hj : j < M.cols) :
    (flat_vals M).getD (i * M.cols + j) 0 = M.data i j := by
  have hcpos : 0 < M.cols := by omega
  have hk : i * M.cols + j < M.rows * M.cols := by
    have h1 : (i + 1) * M.cols = i * M.cols + M.cols := by ring
    have h2 : (i + 1) * M.cols ≤ M.rows * M.cols :=
      Nat.mul_le_mul_right _ (by omega)
    omega
  unfold flat_vals
  rw [List.getD_eq_getElem?_getD, List.getElem?_map, List.getElem?_range hk]
  simp only [Option.map_some', Option.getD_some]
  congr 1
  · rw [Nat.add_comm, Nat.add_mul_div_right _ _ hcpos, Nat.div_eq_of_lt hj,
      Nat.zero_add]
  · rw [Nat.add_comm, Nat.add_mul_mod_self_right, Nat.mod_eq_of_lt hj]

/-- Helper: overwriting a same-shaped matrix with a saved matrix's flat
values reproduces that matrix extensionally. -/
theorem overwrite_matrix_me (M B : Matrix) (hr : B.rows = M.rows)
    (hc : B.cols = M.cols) :
    Matrix.MEq (overwrite_matrix B M.rows M.cols (flat_vals M)) M := by
  refine ⟨hr, hc, ?_⟩
  intro i j hi hj
  have hi' : i < M.rows := by
    simpa [overwrite_matrix, hr] using hi
  have hj' : j < M.cols := by
    simpa [overwrite_matrix, hc] using hj
  show (if i < M.rows ∧ j < M.cols then (flat_vals M).getD (i * M.cols + j) 0
    else B.data i j) = M.data i j
  rw [if_pos ⟨hi', hj'⟩]
  exact flat_vals_getD M i j hi' hj'

/-- Helper: the activation enum code round-trips. -/
theorem Activation.ofInt_toInt (a : Activation) :
    Activation.ofInt a.toInt = a := by
  cases a <;> rfl

/-- Helper: the reconstructed layer agrees with the saved one on sizes,
activation kind, and parameter values. -/
theorem loaded_layer_match (init : ℕ → ℕ → ℝ) (l : Layer) (hwf : LayerWF l) :
    LayerMatch (loaded_layer init l) l := by
  obtain ⟨hwr, hwc, hbr, hbc, _, _⟩ := hwf
  refine ⟨rfl, rfl, Activation.ofInt_toInt l.activation, ?_, ?_⟩
  · exact overwrite_matrix_me l.weights _ (by simpa [Dense] using hwr.symm)
      (by simpa [Dense] using hwc.symm)
  · exact overwrite_matrix_me l.biases _
      (by simpa [Dense, create_matrix] using hbr.symm)
      (by simpa [Dense, create_matrix] using hbc.symm)

/-- Helper: one layer block of a saved file parses into the
reconstructed layer, handing the remaining lines to the next
iteration. -/
theorem load_layers_cons (init : ℕ → ℕ → ℝ) (l : Layer) (n : ℕ)
    (tail : List FLine) (hwf : LayerWF l) :
    load_layers init (n + 1) (save_layer l ++ tail)
      = match load_layers init n tail with
        | none => none
        | some (ls, r) => some (loaded_layer init l :: ls, r) := by
  obtain ⟨hwr, hwc, hbr, hbc, hop, hip⟩ := hwf
  have hw := read_vals_matrix l.weights
    (.dims "BIASES" (l.biases.rows : ℤ) (l.biases.cols : ℤ) ::
      (matrix_lines l.biases ++ (.text "LAYER_END" :: tail)))
  have hb := read_vals_matrix l.biases (.text "LAYER_END" :: tail)
  simp only [save_layer, List.cons_append, List.append_assoc, List.singleton_append,
    List.nil_append]
  rw [load_layers]
  simp only [line_to_int, Int.toNat_natCast, read_dims, if_pos rfl,
    if_neg (show ¬(l.output_size = 0 ∨ l.input_size = 0) by omega), hw, hb,
    line_text]
  simp only [ite_true, Int.toNat_natCast, hw, hb]
  rfl

/-- Helper: the whole saved layer section parses into the reconstructed
layers, leaving the trailing lines untouched. -/
theorem load_layers_save (init : ℕ → ℕ → ℝ) (ls : List Layer) :
    ∀ rest : List FLine, (∀ l ∈ ls, LayerWF l) →
      load_layers init ls.length ((ls.map save_layer).flatten ++ rest)
        = some (ls.map (loaded_layer init), rest) := by
  induction ls with
  | nil => intro rest _; simp [load_layers]
  | cons l ls ih =>
    intro rest hwf
    rw [List.map_cons, List.flatten_cons, List.append_assoc, List.length_cons,
      load_layers_cons init l ls.length _ (hwf l (List.mem_cons_self l ls)),
      ih rest (fun x hx => hwf x (List.mem_cons_of_mem l hx)), List.map_cons]

/-- C6: loading the file produced by saving a well-formed model yields a
model with the same layer count, per-layer input/output sizes,
activation kinds, and extensionally identical weight and bias values
(the `%.17g` lines carry the parameter values exactly). -/
theorem save_load_round_trip (m : SeqModel) (init : ℕ → ℕ → ℝ)
    (hwf : ModelWF m) :
    ∃ m', load_model init (save_model m) = some m' ∧
      m'.num_layers = m.num_layers ∧ m'.name = m.name ∧
      List.Forall₂ LayerMatch m'.layers m.layers := by
  obtain ⟨hnum, hl, hlr⟩ := hwf
  have hload : load_layers init m.num_layers ((m.layers.map save_layer).flatten)
      = some (m.layers.map (loaded_layer init), []) := by
    rw [← List.append_nil ((m.layers.map save_layer).flatten), hnum]
    exact load_layers_save init m.layers [] hl
  have hmatch : List.Forall₂ LayerMatch (m.layers.map (loaded_layer init)) m.layers := by
    rw [List.forall₂_map_left_iff]
    exact List.forall₂_same.mpr (fun l hx => loaded_layer_match init l (hl l hx))
  cases hc : m.is_compiled with
  | true =>
    refine ⟨{ name := m.name, layers := m.layers.map (loaded_layer init),
              num_layers := m.num_layers, learning_rate := m.learning_rate,
              loss_function := LossFunction.ofInt m.loss_function.toInt,
              optimizer_type := Optimizer.ofInt m.optimizer_type.toInt,
              optimizer := some
                { type := Optimizer.ofInt m.optimizer_type.toInt,
                  learning_rate := m.learning_rate,
                  beta1 := if Optimizer.ofInt m.optimizer_type.toInt = .adam then 0.9 else 0,
                  beta2 := if Optimizer.ofInt m.optimizer_type.toInt = .adam then 0.999 else 0,
                  epsilon := if Optimizer.ofInt m.optimizer_type.toInt = .adam then 1e-8 else 0,
                  timestep := 0,
                  max_layers := 100,
                  m_weights := fun _ => none,
                  v_weights := fun _ => none,
                  m_biases := fun _ => none,
                  v_biases := fun _ => none },
              is_compiled := true }, ?_, rfl, rfl, hmatch⟩
    simp only [save_model, load_model, hc, line_to_int, line_to_num, line_text,
      Int.toNat_natCast, if_true, if_pos rfl, hload]
    simp [create_optimizer, hlr hc]
  | false =>
    refine ⟨{ name := m.name, layers := m.layers.map (loaded_layer init),
              num_layers := m.num_layers, learning_rate := m.learning_rate,
              loss_function := LossFunction.ofInt m.loss_function.toInt,
              optimizer_type := Optimizer.ofInt m.optimizer_type.toInt,
              optimizer := none, is_compiled := false }, ?_, rfl, rfl, hmatch⟩
    simp only [save_model, load_model, hc, line_to_int, line_to_num, line_text,
      Int.toNat_natCast, if_pos rfl, hload]
    simp

/-- Witness for C6: the round trip of the compiled fixture model. -/
theorem save_load_round_trip_witness :
    ∃ m', load_model (fun _ _ => 0) (save_model example_compiled_model) = some m' ∧
      m'.num_layers = example_compiled_model.num_layers ∧
      m'.name = example_compiled_model.name ∧
      List.Forall₂ LayerMatch m'.layers example_compiled_model.layers :=
  save_load_round_trip example_compiled_model (fun _ _ => 0)
    ⟨rfl,
     by
       intro l hl
       simp only [example_compiled_model, List.mem_singleton] at hl
       subst hl
       exact ⟨rfl, rfl, rfl, rfl, Nat.one_pos, Nat.one_pos⟩,
     fun _ => by norm_num [example_compiled_model]⟩

/-- Helper: a weights-file block whose dims match the current layer is
consumed whole, and the layer's weights and biases now hold the file's
values. -/
theorem load_weights_layers_cons_ok (n : ℕ) (l : Layer) (ls : List Layer)
    (b : WBlock) (tail : List FLine) (hsz : WBlockSized b)
    (hm : wblock_matches b l) :
    load_weights_layers (n + 1) (l :: ls) (wblock_lines b ++ tail)
      = match load_weights_layers n ls tail with
        | (ls', ok) => (layer_overwritten l b :: ls', ok) := by
  obtain ⟨hsw, hsb⟩ := hsz
  obtain ⟨h1, h2, h3, h4⟩ := hm
  have hw : read_vals b.wvals.length
      (b.wvals.map FLine.num ++
        (.dims "BIASES" (b.br : ℤ) (b.bc : ℤ) :: (b.bvals.map FLine.num ++ tail)))
      = some (b.wvals,
        .dims "BIASES" (b.br : ℤ) (b.bc : ℤ) :: (b.bvals.map FLine.num ++ tail)) :=
    read_vals_append _ _
  have hb : read_vals b.bvals.length (b.bvals.map FLine.num ++ tail)
      = some (b.bvals, tail) := read_vals_append _ _
  rw [hsw] at hw
  rw [hsb] at hb
  have hc1 : (b.wr : ℤ) = (l.weights.rows : ℤ) ∧ (b.wc : ℤ) = (l.weights.cols : ℤ) :=
    ⟨by exact_mod_cast h1, by exact_mod_cast h2⟩
  have hc2 : (b.br : ℤ) = (l.biases.rows : ℤ) ∧ (b.bc : ℤ) = (l.biases.cols : ℤ) :=
    ⟨by exact_mod_cast h3, by exact_mod_cast h4⟩
  simp only [wblock_lines, List.cons_append, List.append_assoc]
  rw [load_weights_layers]
  simp only [read_dims, if_pos rfl, ite_true, Int.toNat_natCast, hw, hb]
  rw [if_pos hc1, if_pos hc2]
  rfl

/-- Helper: a block whose WEIGHTS dims do not match the current layer
makes the loader return immediately with the layer chain as it stands. -/
theorem load_weights_layers_cons_wfail (n : ℕ) (l : Layer) (ls : List Layer)
    (b : WBlock) (tail : List FLine)
    (hm : ¬(b.wr = l.weights.rows ∧ b.wc = l.weights.cols)) :
    load_weights_layers (n + 1) (l :: ls) (wblock_lines b ++ tail)
      = (l :: ls, false) := by
  have hc1 : ¬((b.wr : ℤ) = (l.weights.rows : ℤ) ∧
      (b.wc : ℤ) = (l.weights.cols : ℤ)) := by
    intro hc
    exact hm ⟨by exact_mod_cast hc.1, by exact_mod_cast hc.2⟩
  simp only [wblock_lines, List.cons_append, List.append_assoc]
  rw [load_weights_layers]
  simp only [read_dims, if_pos rfl, ite_true]
  rw [if_neg hc1]

/-- Helper: a block whose WEIGHTS dims match but whose BIASES dims do
not makes the loader return with the current layer's weights — but not
its biases — already overwritten. -/
theorem load_weights_layers_cons_bfail (n : ℕ) (l : Layer) (ls : List Layer)
    (b : WBlock) (tail : List FLine) (hsw : b.wvals.length = b.wr * b.wc)
    (hw2 : b.wr = l.weights.rows ∧ b.wc = l.weights.cols)
    (hb2 : ¬(b.br = l.biases.rows ∧ b.bc = l.biases.cols)) :
    load_weights_layers (n + 1) (l :: ls) (wblock_lines b ++ tail)
      = (layer_weights_overwritten l b :: ls, false) := by
  have hw : read_vals b.wvals.length
      (b.wvals.map FLine.num ++
        (.dims "BIASES" (b.br : ℤ) (b.bc : ℤ) :: (b.bvals.map FLine.num ++ tail)))
      = some (b.wvals,
        .dims "BIASES" (b.br : ℤ) (b.bc : ℤ) :: (b.bvals.map FLine.num ++ tail)) :=
    read_vals_append _ _
  rw [hsw] at hw
  have hc1 : (b.wr : ℤ) = (l.weights.rows : ℤ) ∧ (b.wc : ℤ) = (l.weights.cols : ℤ) :=
    ⟨by exact_mod_cast hw2.1, by exact_mod_cast hw2.2⟩
  have hc2 : ¬((b.br : ℤ) = (l.biases.rows : ℤ) ∧
      (b.bc : ℤ) = (l.biases.cols : ℤ)) := by
    intro hc
    exact hb2 ⟨by exact_mod_cast hc.1, by exact_mod_cast hc.2⟩
  simp only [wblock_lines, List.cons_append, List.append_assoc]
  rw [load_weights_layers]
  simp only [read_dims, if_pos rfl, ite_true, Int.toNat_natCast, hw]
  rw [if_pos hc1, if_neg hc2]
  rfl

/-- Helper for C10: the loader loop, fed a file whose first `k` blocks
match the first `k` layers and whose block `k` has a dimension mismatch,
overwrites the first `k` layers with the file's values, returns failure,
and — when only the biases check of block `k` fails — has also already
overwritten layer `k`'s weights. -/
theorem load_weights_layers_fail_at (bk : WBlock) (lk : Layer)
    (bpost : List WBlock) (lpost : List Layer) :
    ∀ (bpre : List WBlock) (lpre : List Layer) (n : ℕ),
      n = lpre.length + (lpost.length + 1) →
      (∀ b ∈ bpre, WBlockSized b) →
      List.Forall₂ wblock_matches bpre lpre →
      ((¬(bk.wr = lk.weights.rows ∧ bk.wc = lk.weights.cols)) →
        load_weights_layers n (lpre ++ lk :: lpost)
            (((bpre ++ bk :: bpost).map wblock_lines).flatten)
          = (((lpre.zip bpre).map fun p => layer_overwritten p.1 p.2)
              ++ lk :: lpost, false)) ∧
      (WBlockSized bk →
        (bk.wr = lk.weights.rows ∧ bk.wc = lk.weights.cols) →
        (¬(bk.br = lk.biases.rows ∧ bk.bc = lk.biases.cols)) →
        load_weights_layers n (lpre ++ lk :: lpost)
            (((bpre ++ bk :: bpost).map wblock_lines).flatten)
          = (((lpre.zip bpre).map fun p => layer_overwritten p.1 p.2)
              ++ layer_weights_overwritten lk bk :: lpost, false)) := by
  intro bpre
  induction bpre with
  | nil =>
    intro lpre n hn _ hf
    cases hf
    subst hn
    constructor
    · intro hfail
      simp only [List.nil_append, List.map_cons, List.flatten_cons, List.zip_nil_right,
        List.map_nil]
      have := load_weights_layers_cons_wfail (lpost.length) lk lpost bk
        ((bpost.map wblock_lines).flatten) hfail
      simpa using this
    · intro hsz hw2 hb2
      simp only [List.nil_append, List.map_cons, List.flatten_cons, List.zip_nil_right,
        List.map_nil]
      have := load_weights_layers_cons_bfail (lpost.length) lk lpost bk
        ((bpost.map wblock_lines).flatten) hsz.1 hw2 hb2
      simpa using this
  | cons b bpre ih =>
    intro lpre n hn hsz hf
    cases hf with
    | cons hm hf' =>
      rename_i l lpre'
      have hszb : WBlockSized b := hsz b (List.mem_cons_self b bpre)
      have hsz' : ∀ x ∈ bpre, WBlockSized x :=
        fun x hx => hsz x (List.mem_cons_of_mem b hx)
      have hn' : n - 1 = lpre'.length + (lpost.length + 1) := by
        simp only [List.length_cons] at hn
        omega
      have hnpos : n = (n - 1) + 1 := by
        simp only [List.length_cons] at hn
        omega
      obtain ⟨ih1, ih2⟩ := ih lpre' (n - 1) hn' hsz' hf'
      constructor
      · intro hfail
        rw [hnpos]
        simp only [List.cons_append, List.map_cons, List.flatten_cons,
          List.append_assoc]
        rw [load_weights_layers_cons_ok (n - 1) l (lpre' ++ lk :: lpost) b
          _ hszb hm]
        rw [ih1 hfail]
        simp [List.zip_cons_cons]
      · intro hszk hw2 hb2
        rw [hnpos]
        simp only [List.cons_append, List.map_cons, List.flatten_cons,
          List.append_assoc]
        rw [load_weights_layers_cons_ok (n - 1) l (lpre' ++ lk :: lpost) b
          _ hszb hm]
        rw [ih2 hszk hw2 hb2]
        simp [List.zip_cons_cons]

/-- C10: the weights-only load is not atomic.  If the first `k` blocks
of a `DEEPC_WEIGHTS_V2` file match the first `k` layers and block `k`
then fails a dimension check, `load_weights` reports failure with the
first `k` layers' weight and bias matrices already holding the file's
values (and, when it is the biases check that fails, the weights of
layer `k` too); no layer is restored to its pre-call state. -/
theorem load_weights_not_atomic (m : SeqModel) (bpre : List WBlock)
    (bk : WBlock) (bpost : List WBlock) (lpre : List Layer) (lk : Layer)
    (lpost : List Layer)
    (hlayers : m.layers = lpre ++ lk :: lpost)
    (hnum : m.num_layers = m.layers.length)
    (hsz : ∀ b ∈ bpre, WBlockSized b)
    (hf : List.Forall₂ wblock_matches bpre lpre) :
    ((¬(bk.wr = lk.weights.rows ∧ bk.wc = lk.weights.cols)) →
      load_weights m (weights_file m.num_layers (bpre ++ bk :: bpost))
        = ({ m with layers :=
              ((lpre.zip bpre).map fun p => layer_overwritten p.1 p.2)
                ++ lk :: lpost }, false)) ∧
    (WBlockSized bk →
      (bk.wr = lk.weights.rows ∧ bk.wc = lk.weights.cols) →
      (¬(bk.br = lk.biases.rows ∧ bk.bc = lk.biases.cols)) →
      load_weights m (weights_file m.num_layers (bpre ++ bk :: bpost))
        = ({ m with layers :=
              ((lpre.zip bpre).map fun p => layer_overwritten p.1 p.2)
                ++ layer_weights_overwritten lk bk :: lpost }, false)) := by
  have hcount : m.num_layers = lpre.length + (lpost.length + 1) := by
    rw [hnum, hlayers]
    simp
  obtain ⟨core1, core2⟩ := load_weights_layers_fail_at bk lk bpost lpost bpre lpre
    m.num_layers hcount hsz hf
  rw [← hlayers] at core1 core2
  constructor
  · intro hfail
    simp only [load_weights, weights_file, line_to_int, if_pos rfl, ite_true]
    rw [if_neg (show ¬((m.num_layers : ℤ) ≠ (m.num_layers : ℤ)) by simp),
      Int.toNat_natCast, core1 hfail]
  · intro hszk hw2 hb2
    simp only [load_weights, weights_file, line_to_int, if_pos rfl, ite_true]
    rw [if_neg (show ¬((m.num_layers : ℤ) ≠ (m.num_layers : ℤ)) by simp),
      Int.toNat_natCast, core2 hszk hw2 hb2]

/-- Witness for C10: loading a two-block weights file into the fixture
model, where block 0 matches and block 1 declares mismatched weight
dims, fails — but the first layer's weight already holds the file's
value `5`, while the second layer keeps its original weight `2`. -/
theorem load_weights_not_atomic_witness :
    (load_weights example_two_layer_model
      (weights_file example_two_layer_model.num_layers
        ([example_wblock_ok] ++ example_wblock_bad :: []))).2 = false ∧
    ((load_weights example_two_layer_model
      (weights_file example_two_layer_model.num_layers
        ([example_wblock_ok] ++ example_wblock_bad :: []))).1.layers.getD 0
          (Dense 1 .linear 1 (fun _ _ => 0))).weights.data 0 0 = 5 ∧
    ((load_weights example_two_layer_model
      (weights_file example_two_layer_model.num_layers
        ([example_wblock_ok] ++ example_wblock_bad :: []))).1.layers.getD 1
          (Dense 1 .linear 1 (fun _ _ => 0))).weights.data 0 0 = 2 := by
  have h := (load_weights_not_atomic example_two_layer_model
    [example_wblock_ok] example_wblock_bad []
    [Dense 1 .linear 1 (fun _ _ => 1)] (Dense 1 .linear 1 (fun _ _ => 2)) []
    rfl rfl
    (by
      intro b hb
      simp only [List.mem_singleton] at hb
      subst hb
      exact ⟨rfl, rfl⟩)
    (List.Forall₂.cons ⟨rfl, rfl, rfl, rfl⟩ List.Forall₂.nil)).1
    (by
      intro hcon
      exact absurd hcon.1 (by decide))
  rw [h]
  refine ⟨rfl, ?_, ?_⟩
  · simp [layer_overwritten, overwrite_matrix, example_wblock_ok]
  · simp [Dense]

end DeepC
